import Mathlib

/-!
Verification of the `deno-dataframe` columnar data-table library.

The development shallowly embeds the `Series`/`DataFrame` model of
`src/series.ts` and `src/dataframe.ts` (the revision carrying `outlier`
and `leftJoin`; the older revision's in-place `reverse`/`shuffle` are
embedded separately where a claim is about them).  JavaScript numbers are
modelled as rationals; the external statistics primitives (`avg`, `std`,
`correlation` from `@sauber/statistics`) and the permutation provider are
parameters, as the spec declares them external collaborators.  JavaScript
arrays are lists in which a hole reads as `undefined`; out-of-bounds
reads yield `undefined`; `arr[i] = v` may extend an array with holes.
-/

namespace DFrame

/-- A runtime value that can live in a series: a (rational-modelled) number,
a string, a boolean, an opaque object identified by a tag, or `undefined`. -/
inductive Value where
  | num (q : Rat)
  | str (s : String)
  | bool (b : Bool)
  | obj (id : Nat)
  | undef
deriving DecidableEq

/-- The kind tag of a column, mirroring the four Series classes
`Series` (numbers), `TextSeries`, `BoolSeries`, `ObjectSeries`. -/
inductive ColKind where
  | num
  | text
  | bool
  | obj
deriving DecidableEq

/-- One column: the Series class it was built with, and its stored values
(`values` field of the Series classes). -/
structure Column where
  kind : ColKind
  values : List Value
deriving DecidableEq

/-- The `isNumber` flag of a series: true exactly for the numeric `Series`
class (`series.ts` sets `isNumber` per class). -/
def Column.isNumber (c : Column) : Bool := c.kind == ColKind.num

/-- Read a JavaScript array at a position: a hole or an out-of-bounds read
yields `undefined`. -/
def getV (l : List Value) (i : Nat) : Value := l.getD i Value.undef

/-- JavaScript `arr[i] = v`: in-range writes replace, writes past the end
extend the array with holes (which read as `undefined`). -/
def assignAt (l : List Value) (i : Nat) (v : Value) : List Value :=
  if i < l.length then l.set i v
  else l ++ List.replicate (i - l.length) Value.undef ++ [v]

/-- Look a key up in a JavaScript-object-like association list
(`obj[key]`, `undefined` when absent is modelled by `none`). -/
def lookupKey {α : Type} : List (String × α) → String → Option α
  | [], _ => none
  | p :: ps, k => if p.1 == k then some p.2 else lookupKey ps k

/-- JavaScript `obj[key] = v` on an object: overwrite in place if the key
exists (keeping its position in insertion order), else append it (object
keys are unique, so replacing the first match is the property update). -/
def setKey {α : Type} : List (String × α) → String → α → List (String × α)
  | [], k, v => [(k, v)]
  | p :: ps, k, v => if p.1 == k then (k, v) :: ps else p :: setKey ps k v

/-- JavaScript `Object.assign(a, b)`: copy `b`'s properties onto `a` in
`b`'s insertion order. -/
def recordAssign {α : Type} (a b : List (String × α)) : List (String × α) :=
  b.foldl (fun acc p => setKey acc p.1 p.2) a

/-- The `series()` helper of `dataframe.ts`: infer the Series class from
the first defined value of the array (`typeof array.filter((v) => v !=
undefined)[0]`), defaulting to `ObjectSeries`. -/
def series (array : List Value) : Column :=
  match (array.filter (fun v => v != Value.undef)).head? with
  | some (Value.num _) => ⟨ColKind.num, array⟩
  | some (Value.str _) => ⟨ColKind.text, array⟩
  | some (Value.bool _) => ⟨ColKind.bool, array⟩
  | _ => ⟨ColKind.obj, array⟩

/-- A row record as passed to callbacks and produced by `records`:
column name to value, in column order. -/
def RowRecord := List (String × Value)
deriving instance DecidableEq for RowRecord

/-- The DataFrame class: named columns in insertion order plus the
row-index defining the current view. -/
structure DataFrame where
  columns : List (String × Column)
  index : List Nat
deriving DecidableEq

/-- The index the constructor builds when none is supplied: the natural
sequence over the FIRST column's storage length, or empty if there are no
columns. -/
def defaultIndex (columns : List (String × Column)) : List Nat :=
  match columns with
  | [] => []
  | c :: _ => List.range c.2.values.length

/-- The DataFrame constructor: keep a supplied index, else default. -/
def mkFrame (columns : List (String × Column)) (index : Option (List Nat)) : DataFrame :=
  ⟨columns, index.getD (defaultIndex columns)⟩

namespace DataFrame

/-- The `names` getter: `Object.keys(this.columns)`. -/
def names (F : DataFrame) : List String := F.columns.map Prod.fst

/-- The `column(name)` lookup; `none` models JavaScript `undefined` for an
unknown name. -/
def column? (F : DataFrame) (name : String) : Option Column := lookupKey F.columns name

/-- The raw storage of a column, `this.columns[name].values`.  In
JavaScript an unknown name would throw here; the embedding totalises with
`[]` and theorems needing this access carry a `name ∈ F.names` hypothesis. -/
def colStorage (F : DataFrame) (name : String) : List Value :=
  ((F.column? name).map Column.values).getD []

/-- The `length` getter: count of visible rows. -/
def length (F : DataFrame) : Nat := F.index.length

/-- The private `record(index)`: assemble one row record at a storage
position across all columns. -/
def record (F : DataFrame) (i : Nat) : RowRecord :=
  F.names.map (fun x => (x, getV (F.colStorage x) i))

/-- The `records` getter: one record per visible row, in view order. -/
def records (F : DataFrame) : List RowRecord := F.index.map (fun i => F.record i)

/-- The `values(name)` getter: the visible values of one column, in view
order. -/
def values (F : DataFrame) (name : String) : List Value :=
  F.index.map (fun i => getV (F.colStorage name) i)

/-- The private `reindex`: same columns, new index. -/
def reindex (F : DataFrame) (index : List Nat) : DataFrame := ⟨F.columns, index⟩

/-- The `select(callback)` operation: keep, in order, the index positions
whose assembled record satisfies the callback (JavaScript truthiness of
the callback result is folded into the `Bool` codomain). -/
def select (F : DataFrame) (cb : RowRecord → Bool) : DataFrame :=
  F.reindex (F.index.filter (fun i => cb (F.record i)))

/-- The `reverse` getter of the current revision:
`this.index.slice().reverse()` — a reversed copy, no mutation. -/
def reverse (F : DataFrame) : DataFrame := F.reindex F.index.reverse

/-- The `slice(start, end)` operation (non-negative arguments):
`Array.prototype.slice` clamps and yields the half-open range. -/
def slice (F : DataFrame) (start stop : Nat) : DataFrame :=
  F.reindex ((F.index.take stop).drop start)

/-- The `shuffle` getter of the current revision, parameterised by the
external permutation provider `shuffleArray`. -/
def shuffle (F : DataFrame) (σ : List Nat → List Nat) : DataFrame :=
  F.reindex (σ F.index)

/-- JavaScript falsiness, as used by `x || 0` in the sort comparator. -/
def jsFalsy : Value → Bool
  | Value.num q => q == 0
  | Value.str s => s == ""
  | Value.bool b => !b
  | Value.obj _ => false
  | Value.undef => true

/-- The `(a[1] || 0)` coercion of the sort comparator: falsy values
(in particular a missing value) are replaced by the number 0. -/
def orZero (v : Value) : Value := if jsFalsy v then Value.num 0 else v

/-- The numeric content of a value under JavaScript ToNumber, for
the cases exercised by the library (numbers and booleans); `none` stands
for NaN (strings and objects are not numerically compared by any claim). -/
def valNum? : Value → Option Rat
  | Value.num q => some q
  | Value.bool b => some (if b then 1 else 0)
  | _ => none

/-- JavaScript `<` on series values: string/string lexicographic,
otherwise numeric comparison, `false` whenever an operand is NaN-like. -/
def jsLt : Value → Value → Bool
  | Value.str a, Value.str b => decide (a < b)
  | a, b =>
    match valNum? a, valNum? b with
    | some x, some y => decide (x < y)
    | _, _ => false

/-- Insert one zipped element into an already comparator-sorted run,
placing it before the first element it compares strictly below (ties keep
earlier elements first, matching the engine's stable sort with the
never-zero comparator of `sort`). -/
def insertPair (lt : (Nat × Value) → (Nat × Value) → Bool) (a : Nat × Value) :
    List (Nat × Value) → List (Nat × Value)
  | [] => [a]
  | b :: bs => if lt a b then a :: b :: bs else b :: insertPair lt a bs

/-- The comparison sort applied to the zipped `[position, value]` pairs. -/
def sortPairs (lt : (Nat × Value) → (Nat × Value) → Bool)
    (l : List (Nat × Value)) : List (Nat × Value) :=
  l.foldl (fun acc x => insertPair lt x acc) []

/-- The `sort(colname, ascending)` operation: zip the current index with
the column's storage values, sort by the `(a[1] || 0) < (b[1] || 0)`
comparator (operands flipped when descending), and reindex by the sorted
positions. -/
def sort (F : DataFrame) (colname : String) (ascending : Bool) : DataFrame :=
  let value := F.colStorage colname
  let zip := F.index.map (fun i => (i, getV value i))
  let sorted :=
    if ascending then sortPairs (fun a b => jsLt (orZero a.2) (orZero b.2)) zip
    else sortPairs (fun a b => jsLt (orZero b.2) (orZero a.2)) zip
  F.reindex (sorted.map Prod.fst)

/-- The `amend(name, callback)` operation of the current revision:
`const array = Array(this.length)`, then for each visible position
`array[index] = callback(this.record(index))`, then install the inferred
series under `name` keeping the current index. -/
def amend (F : DataFrame) (name : String) (cb : RowRecord → Value) : DataFrame :=
  let array := F.index.foldl (fun a i => assignAt a i (cb (F.record i)))
    (List.replicate F.length Value.undef)
  ⟨setKey F.columns name (series array), F.index⟩

/-- The `join(other)` operation: merge the two column objects with
`Object.assign` and build a frame with no index argument. -/
def join (F G : DataFrame) : DataFrame :=
  mkFrame (recordAssign F.columns G.columns) none

/-- The `rename(names)` operation: rebuild the column object in order,
mapping each name through the given translation. -/
def rename (F : DataFrame) (m : List (String × String)) : DataFrame :=
  ⟨F.columns.foldl (fun acc p => setKey acc ((lookupKey m p.1).getD p.1) p.2) [],
    F.index⟩

/-- The private `generate(name, callback)`: a fresh numeric Series of the
column's storage length, filled only at visible positions whose current
value is defined. -/
def generate (F : DataFrame) (name : String) (cb : Value → Value) : Column :=
  let current := F.colStorage name
  let vals := F.index.foldl
    (fun a i => if getV current i != Value.undef then assignAt a i (cb (getV current i)) else a)
    (List.replicate current.length Value.undef)
  ⟨ColKind.num, vals⟩

/-- The private `replace`/`derive` pair: install the generated column
under the same name, keeping the current index. -/
def derive (F : DataFrame) (name : String) (cb : Value → Value) : DataFrame :=
  ⟨setKey F.columns name (F.generate name cb), F.index⟩

/-- The `log(name)` operation; `logV` is `Math.log` (kept abstract: real
logarithms of floats are outside the rational model). -/
def log (F : DataFrame) (logV : Value → Value) (name : String) : DataFrame :=
  F.derive name logV

/-- The callback `(n) => n * factor` of `scale`; `co` models the coercive
multiplication JavaScript would perform on a non-numeric defined operand
(never exercised on the numeric columns the claims speak about). -/
def mulCB (co : Value → Value) (factor : Rat) : Value → Value
  | Value.num q => Value.num (q * factor)
  | v => co v

/-- The callback `(n) => n + operand` of `add`, analogously. -/
def addCB (co : Value → Value) (operand : Rat) : Value → Value
  | Value.num q => Value.num (q + operand)
  | v => co v

/-- The `scale(name, factor)` operation. -/
def scale (F : DataFrame) (co : Value → Value) (name : String) (factor : Rat) : DataFrame :=
  F.derive name (mulCB co factor)

/-- The `add(name, operand)` operation. -/
def add (F : DataFrame) (co : Value → Value) (name : String) (operand : Rat) : DataFrame :=
  F.derive name (addCB co operand)

end DataFrame

/-- The `fromRecords` transpose loop: for each record in order, write each
of its fields into the per-key array, creating
`new Array(records.length).with(index, value)` on first encounter. -/
def transpose (recs : List RowRecord) : List (String × List Value) :=
  (recs.enum.foldl (fun arrays p =>
    p.2.foldl (fun arrays kv =>
      match lookupKey arrays kv.1 with
      | none => arrays ++ [(kv.1, (List.replicate recs.length Value.undef).set p.1 kv.2)]
      | some arr => setKey arrays kv.1 (assignAt arr p.1 kv.2)) arrays) [])

/-- `DataFrame.fromRecords`: transpose the records, infer one series per
key, and build a frame with the default index. -/
def fromRecords (recs : List RowRecord) : DataFrame :=
  mkFrame ((transpose recs).map (fun p => (p.1, series p.2))) none

/-- A declared column kind of a `fromDef` header. -/
def kindOfTypeName (t : String) : ColKind :=
  if t == "number" then ColKind.num
  else if t == "string" then ColKind.text
  else if t == "bool" then ColKind.bool
  else ColKind.obj

/-- `DataFrame.fromDef`: one column per header entry, reading `r[name]`
from each record and stamping the declared kind regardless of the values. -/
def fromDef (header : List (String × String)) (recs : List RowRecord) : DataFrame :=
  mkFrame (header.map (fun p =>
    (p.1, Column.mk (kindOfTypeName p.2) (recs.map (fun r => (lookupKey r p.1).getD Value.undef)))))
    none

/-- The external statistics provider of `@sauber/statistics`: `avg` and
`std` over a sequence of values (the spec declares their numerics a
black box; they receive the visible values of a column, which may include
`undefined`). -/
structure StatsProvider where
  avg : List Value → Rat
  std : List Value → Rat

namespace DataFrame

/-- The outlier test `Math.abs(mean - val) / stdv > factor` under
JavaScript arithmetic: a non-numeric value makes the numerator NaN (test
false); a zero standard deviation gives Infinity when the deviation is
positive (test true for any finite factor) and NaN when it is zero. -/
def ratioGT (mean : Rat) (val : Value) (stdv factor : Rat) : Bool :=
  match valNum? val with
  | none => false
  | some v =>
    if stdv == 0 then decide (0 < |mean - v|) else decide (factor < |mean - v| / stdv)

/-- JavaScript `Set.prototype.add` on the skip set of row positions. -/
def insertSkip (i : Nat) (s : List Nat) : List Nat := if i ∈ s then s else s ++ [i]

/-- The `outlier(factor)` operation: for every numeric column take mean
and standard deviation of the visible values, mark every visible position
whose value deviates by more than `factor` standard deviations in any
numeric column, and reindex to the unmarked positions in current order. -/
def outlier (F : DataFrame) (S : StatsProvider) (factor : Rat) : DataFrame :=
  let skip := F.columns.foldl (fun skip p =>
    if p.2.isNumber then
      let col := F.values p.1
      let mean := S.avg col
      let stdv := S.std col
      F.index.foldl (fun skip i =>
        if ratioGT mean (getV p.2.values i) stdv factor then insertSkip i skip else skip) skip
    else skip) ([] : List Nat)
  F.reindex (F.index.filter (fun i => !(skip.contains i)))

/-- JavaScript `Array.prototype.indexOf`: scan from the front for the
first strictly equal element; `none` models the `-1` not-found result. -/
def idxOf : List Value → Value → Option Nat
  | [], _ => none
  | x :: xs, v => if x == v then some 0 else (idxOf xs v).map Nat.succ

/-- Read a storage array at an `indexOf` result: `arr[-1]` is `undefined`. -/
def getVO (l : List Value) : Option Nat → Value
  | none => Value.undef
  | some i => getV l i

/-- The `leftJoin(other, name)` operation: for each visible key of
`other`, match the first storage position of that key in this frame's key
column with the first storage position in `other`'s key column; copy each
non-key column of `other` across the matched pairs into sparse new
columns and merge them in with `join`. -/
def leftJoin (F G : DataFrame) (name : String) : DataFrame :=
  let source := G.colStorage name
  let target := F.colStorage name
  let keys := G.values name
  let rowmap := keys.foldl (fun acc key =>
    match idxOf target key with
    | some t => acc ++ [(idxOf source key, t)]
    | none => acc) ([] : List (Option Nat × Nat))
  let columns := (G.names.filter (fun n => n != name)).foldl (fun acc n =>
    let sourceColumn := G.colStorage n
    let vals := rowmap.foldl (fun vs p => assignAt vs p.2 (getVO sourceColumn p.1)) []
    setKey acc n (series vals)) []
  F.join (mkFrame columns none)

/-- The `correlationMatrix(other)` operation, parameterised by the
external `correlation` primitive: a leading `Name` text column holding
this frame's column names, then one numeric column per column name of
`other` whose entries apply `correlation` to the two columns' full
storage arrays (`sc.values`, `sr.values`). -/
def correlationMatrix (F G : DataFrame) (corr : List Value → List Value → Rat) : DataFrame :=
  let rows := F.names
  let init : List (String × Column) := [("Name", ⟨ColKind.text, rows.map Value.str⟩)]
  let columns := G.names.foldl (fun acc colname =>
    let results := rows.map (fun rn => Value.num (corr (G.colStorage colname) (F.colStorage rn)))
    setKey acc colname ⟨ColKind.num, results⟩) init
  mkFrame columns none

end DataFrame

/-- The object a frame's `include` builds: column names bound to either a
column or to JavaScript `undefined` (`none`), as produced by
`Object.assign({}, ...names.map((x) => ({ [x]: this.column(x) })))` when a
name is unknown. -/
structure RawFrame where
  columns : List (String × Option Column)
  index : List Nat
deriving DecidableEq

namespace DataFrame

/-- The `include(names)` operation, exactly as written: every requested
name becomes a property whose value is the `column(x)` lookup — `none`
(JavaScript `undefined`) when the name is unknown; the current index is
passed through.  No error of any kind is raised. -/
def includeRaw (F : DataFrame) (names : List String) : RawFrame :=
  ⟨names.foldl (fun acc x => setKey acc x (F.column? x)) [], F.index⟩

/-- The `exclude(names)` operation: `include` over the current names with
the given ones filtered out (unknown given names match nothing). -/
def excludeRaw (F : DataFrame) (names : List String) : RawFrame :=
  F.includeRaw (F.names.filter (fun n => !(names.contains n)))

end DataFrame

/-- Reading a raw `include`/`exclude` result back as a DataFrame; on
well-formed input (all names known) nothing is dropped and this is the
frame the JavaScript code returns. -/
def RawFrame.toFrame (R : RawFrame) : DataFrame :=
  ⟨R.columns.filterMap (fun p => p.2.map (fun c => (p.1, c))), R.index⟩

namespace DataFrame

/-- The `include` restricted to known names (the well-formed case). -/
def includeF (F : DataFrame) (names : List String) : DataFrame :=
  (F.includeRaw names).toFrame

/-- The `exclude` as a DataFrame (its kept names are always known). -/
def excludeF (F : DataFrame) (names : List String) : DataFrame :=
  (F.excludeRaw names).toFrame

end DataFrame

/-- The OLDER revision's `reverse` getter, which runs
`this.reindex(this.index.reverse())`: `Array.prototype.reverse` reverses
the receiver's index array in place and returns that same array, so the
call produces a result frame AND leaves the receiver holding the reversed
index.  The pair is (returned frame, receiver after the call). -/
def reverseCallOld (F : DataFrame) : DataFrame × DataFrame :=
  (⟨F.columns, F.index.reverse⟩, ⟨F.columns, F.index.reverse⟩)

/-- The OLDER revision's `shuffle` getter,
`this.reindex(this.index.sort(() => Math.random() - 0.5))`:
`Array.prototype.sort` permutes the receiver's index array in place and
returns it; `σ` is the permutation the random comparator produces.
The pair is (returned frame, receiver after the call). -/
def shuffleCallOld (F : DataFrame) (σ : List Nat → List Nat) : DataFrame × DataFrame :=
  (⟨F.columns, σ F.index⟩, ⟨F.columns, σ F.index⟩)

/-- The current revision's `reverse` as a call: `this.index.slice()`
copies the index before reversing, so the receiver is untouched. -/
def reverseCall (F : DataFrame) : DataFrame × DataFrame :=
  (F.reverse, F)

/-- Well-formedness of a frame (spec Invariant 1): all columns share one
storage length and every index entry lies below it. -/
def WF (F : DataFrame) : Prop :=
  (∀ p ∈ F.columns, ∀ q ∈ F.columns, p.2.values.length = q.2.values.length) ∧
  (∀ i ∈ F.index, ∀ p ∈ F.columns, i < p.2.values.length)

/-- One public frame operation, for stating invariant preservation over
operation sequences.  Callback-taking operations carry the callback;
`shuffleOp` carries the external permutation provider. -/
inductive FrameOp where
  | selectOp (cb : RowRecord → Bool)
  | sortOp (name : String) (asc : Bool)
  | sliceOp (a b : Nat)
  | reverseOp
  | shuffleOp (σ : List Nat → List Nat)
  | outlierOp (S : StatsProvider) (factor : Rat)
  | renameOp (m : List (String × String))
  | includeOp (names : List String)
  | excludeOp (names : List String)
  | deriveOp (name : String) (cb : Value → Value)

/-- Apply one public operation. -/
def applyOp (F : DataFrame) : FrameOp → DataFrame
  | FrameOp.selectOp cb => F.select cb
  | FrameOp.sortOp name asc => F.sort name asc
  | FrameOp.sliceOp a b => F.slice a b
  | FrameOp.reverseOp => F.reverse
  | FrameOp.shuffleOp σ => F.shuffle σ
  | FrameOp.outlierOp S factor => F.outlier S factor
  | FrameOp.renameOp m => F.rename m
  | FrameOp.includeOp names => F.includeF names
  | FrameOp.excludeOp names => F.excludeF names
  | FrameOp.deriveOp name cb => F.derive name cb

/-- Apply a sequence of public operations in order. -/
def applyOps (F : DataFrame) (ops : List FrameOp) : DataFrame := ops.foldl applyOp F

/-- Arguments under which the operation is within its precondition:
named columns exist (JavaScript would throw otherwise), `include` names
are known, and the shuffle provider honours its permutation contract. -/
def GoodOp (F : DataFrame) : FrameOp → Prop
  | FrameOp.sortOp name _ => name ∈ F.names
  | FrameOp.shuffleOp σ => (σ F.index).Perm F.index
  | FrameOp.includeOp names => ∀ x ∈ names, x ∈ F.names
  | FrameOp.deriveOp name _ => name ∈ F.names
  | _ => True

/-- Every operation of the sequence is within its precondition at the
frame it is applied to. -/
def GoodSeq : DataFrame → List FrameOp → Prop
  | _, [] => True
  | F, op :: ops => GoodOp F op ∧ GoodSeq (applyOp F op) ops

/-- A two-row numeric test frame, records `[{n:1},{n:2}]`. -/
def dfN : DataFrame := fromRecords [[("n", Value.num 1)], [("n", Value.num 2)]]

/-- The sorting test records `[{k:2},{k:1}]` of the spec's concrete case. -/
def dfK : DataFrame := fromRecords [[("k", Value.num 2)], [("k", Value.num 1)]]

/-- Left frame of the spec's left-join concrete case: key column `["x","y"]`. -/
def dfJoinL : DataFrame := fromRecords [[("k", Value.str "x")], [("k", Value.str "y")]]

/-- Right frame of the spec's left-join concrete case: keys `["y","z"]`,
payload `p = [10, 20]`. -/
def dfJoinR : DataFrame := fromRecords
  [[("k", Value.str "y"), ("p", Value.num 10)], [("k", Value.str "z"), ("p", Value.num 20)]]

/-- The outlier concrete case: one numeric column `n = [1,2,1,2,1,10]`. -/
def dfOutl : DataFrame := fromRecords
  [[("n", Value.num 1)], [("n", Value.num 2)], [("n", Value.num 1)],
   [("n", Value.num 2)], [("n", Value.num 1)], [("n", Value.num 10)]]

/-- A frame with a numeric and a text column, for the correlation-matrix
counterexample. -/
def dfMix : DataFrame := fromRecords [[("n", Value.num 1), ("s", Value.str "a")]]

/-- A one-numeric-column frame `m = [1]`. -/
def dfM : DataFrame := fromRecords [[("m", Value.num 1)]]

/-- A second two-row frame for join tests, records `[{o:4},{o:5}]`. -/
def dfO : DataFrame := fromRecords [[("o", Value.num 4)], [("o", Value.num 5)]]

end DFrame


namespace DFrame

/-- The numeric sort key of a value after the comparator's `|| 0`
coercion: for values a numeric column stores, the number, with a missing
value reading as zero. -/
def toQ : Value → Rat
  | Value.num q => q
  | _ => 0

/-- Whether a value is one a numeric column stores: a number or missing. -/
def numOk : Value → Bool
  | Value.num _ => true
  | Value.undef => true
  | _ => false

/-- The claim's reading of the left join (C5): the payload cell of column
`n` at target storage position `t` holds, when some key value visible in
`other`'s key column has its first occurrence in this frame's key column
at `t`, the value of `other`'s column `n` at that key's first occurrence
in `other`'s key column; at every unmatched position it is absent. -/
def specLeftJoinCell (F G : DataFrame) (name n : String) (t : Nat) : Value :=
  match (G.values name).find? (fun k => DataFrame.idxOf (F.colStorage name) k == some t) with
  | some k => DataFrame.getVO (G.colStorage n) (DataFrame.idxOf (G.colStorage name) k)
  | none => Value.undef

/-- Whether the outlier pass marks storage position `i`: some numeric
column's value at `i` deviates from the column's visible mean by more
than `factor` visible standard deviations (statistics per provider `S`). -/
def markedOutlier (F : DataFrame) (S : StatsProvider) (factor : Rat) (i : Nat) : Bool :=
  F.columns.any (fun p =>
    p.2.isNumber &&
      DataFrame.ratioGT (S.avg (F.values p.1)) (getV p.2.values i) (S.std (F.values p.1)) factor)

/-- A witness statistics provider for the outlier concrete case: the true
mean 17/6 of `[1,2,1,2,1,10]` and a standard deviation inside the
interval the concrete case needs. -/
def Swit : StatsProvider := ⟨fun _ => 17/6, fun _ => 3⟩

end DFrame

namespace DFrame

theorem getV_nil (i : Nat) : getV [] i = Value.undef := by
  cases i <;> rfl

theorem getV_cons_zero (v : Value) (l : List Value) : getV (v :: l) 0 = v := rfl

theorem getV_cons_succ (v : Value) (l : List Value) (i : Nat) :
    getV (v :: l) (i + 1) = getV l i := rfl

theorem getV_append (a b : List Value) (i : Nat) :
    getV (a ++ b) i = if i < a.length then getV a i else getV b (i - a.length) := by
  induction a generalizing i with
  | nil => simp [getV_nil]
  | cons x xs ih =>
    cases i with
    | zero => simp [getV_cons_zero]
    | succ n => simpa [getV_cons_succ, Nat.succ_lt_succ_iff] using ih n

theorem getV_set_self (l : List Value) (i : Nat) (v : Value) (h : i < l.length) :
    getV (l.set i v) i = v := by
  induction l generalizing i with
  | nil => simp at h
  | cons x xs ih =>
    cases i with
    | zero => rfl
    | succ n =>
      simp only [List.length_cons, Nat.succ_lt_succ_iff] at h
      simpa [List.set, getV_cons_succ] using ih n h

theorem getV_set_ne (l : List Value) (i j : Nat) (v : Value) (h : i ≠ j) :
    getV (l.set j v) i = getV l i := by
  induction l generalizing i j with
  | nil => rfl
  | cons x xs ih =>
    cases j with
    | zero =>
      cases i with
      | zero => exact absurd rfl h
      | succ n => rfl
    | succ m =>
      cases i with
      | zero => rfl
      | succ n => simpa [List.set, getV_cons_succ] using ih n m (fun e => h (by omega))

theorem getV_replicate_undef (n i : Nat) : getV (List.replicate n Value.undef) i = Value.undef := by
  induction n generalizing i with
  | zero => simp [getV_nil]
  | succ m ih =>
    cases i with
    | zero => rfl
    | succ k => simpa [List.replicate, getV_cons_succ] using ih k

theorem getV_oob (l : List Value) (i : Nat) (h : l.length ≤ i) : getV l i = Value.undef := by
  induction l generalizing i with
  | nil => exact getV_nil i
  | cons x xs ih =>
    cases i with
    | zero => simp at h
    | succ n =>
      rw [getV_cons_succ]
      exact ih n (by simpa [Nat.succ_le_succ_iff] using h)

theorem getV_assignAt_self (l : List Value) (i : Nat) (v : Value) :
    getV (assignAt l i v) i = v := by
  unfold assignAt
  by_cases h : i < l.length
  · rw [if_pos h]; exact getV_set_self l i v h
  · rw [if_neg h]
    have hlen : (l ++ List.replicate (i - l.length) Value.undef).length = i := by
      simp only [List.length_append, List.length_replicate]; omega
    rw [getV_append, hlen, if_neg (Nat.lt_irrefl i), Nat.sub_self]
    rfl

theorem getV_assignAt_ne (l : List Value) (i j : Nat) (v : Value) (h : i ≠ j) :
    getV (assignAt l j v) i = getV l i := by
  unfold assignAt
  by_cases hj : j < l.length
  · rw [if_pos hj]; exact getV_set_ne l i j v h
  · rw [if_neg hj]
    have hlen : (l ++ List.replicate (j - l.length) Value.undef).length = j := by
      simp only [List.length_append, List.length_replicate]; omega
    rw [getV_append, hlen]
    by_cases hi : i < j
    · rw [if_pos hi, getV_append]
      by_cases hil : i < l.length
      · rw [if_pos hil]
      · rw [if_neg hil, getV_replicate_undef, getV_oob l i (by omega)]
    · rw [if_neg hi]
      have h1 : getV l i = Value.undef := getV_oob l i (by omega)
      have h2 : getV [v] (i - j) = Value.undef := by
        cases hv : i - j with
        | zero => omega
        | succ n => rw [getV_cons_succ, getV_nil]
      rw [h1, h2]

theorem lookupKey_setKey_self {α : Type} (l : List (String × α)) (k : String) (v : α) :
    lookupKey (setKey l k v) k = some v := by
  induction l with
  | nil => simp [setKey, lookupKey]
  | cons p ps ih =>
    by_cases h : p.1 = k
    · simp [setKey, lookupKey, h]
    · simp [setKey, lookupKey, h, ih]

theorem lookupKey_setKey_ne {α : Type} (l : List (String × α)) (k k' : String) (v : α)
    (h : k' ≠ k) : lookupKey (setKey l k v) k' = lookupKey l k' := by
  have hk : ¬ (k = k') := fun e => h e.symm
  induction l with
  | nil => simp [setKey, lookupKey, hk]
  | cons p ps ih =>
    by_cases hp : p.1 = k
    · have hp' : ¬ (p.1 = k') := fun e => h (hp ▸ e).symm
      simp [setKey, lookupKey, hp, hk, hp']
    · simp [setKey, lookupKey, hp, ih]

theorem lookupKey_eq_none {α : Type} (l : List (String × α)) (k : String)
    (h : k ∉ l.map Prod.fst) : lookupKey l k = none := by
  induction l with
  | nil => rfl
  | cons p ps ih =>
    simp only [List.map_cons, List.mem_cons] at h
    push_neg at h
    simp [lookupKey, Ne.symm h.1, ih h.2]

theorem lookupKey_isSome {α : Type} (l : List (String × α)) (k : String)
    (h : k ∈ l.map Prod.fst) : (lookupKey l k).isSome := by
  induction l with
  | nil => simp at h
  | cons p ps ih =>
    by_cases hp : p.1 = k
    · simp [lookupKey, hp]
    · simp only [List.map_cons, List.mem_cons] at h
      simp only [lookupKey, beq_iff_eq, hp, if_false]
      exact ih (h.resolve_left (fun e => hp e.symm))

theorem mem_setKey {α : Type} (l : List (String × α)) (k : String) (v : α)
    (q : String × α) (h : q ∈ setKey l k v) : q = (k, v) ∨ q ∈ l := by
  induction l with
  | nil => exact Or.inl (by simpa [setKey] using h)
  | cons p ps ih =>
    by_cases hp : p.1 = k
    · simp only [setKey, hp, beq_self_eq_true, if_true, List.mem_cons] at h
      rcases h with h | h
      · exact Or.inl h
      · exact Or.inr (List.mem_cons_of_mem p h)
    · simp only [setKey, beq_iff_eq, hp, if_false, List.mem_cons] at h
      rcases h with h | h
      · exact Or.inr (h ▸ List.mem_cons_self p ps)
      · rcases ih h with h2 | h2
        · exact Or.inl h2
        · exact Or.inr (List.mem_cons_of_mem p h2)

end DFrame

namespace DFrame

theorem setKey_of_not_mem {α : Type} (l : List (String × α)) (k : String) (v : α)
    (h : k ∉ l.map Prod.fst) : setKey l k v = l ++ [(k, v)] := by
  induction l with
  | nil => rfl
  | cons p ps ih =>
    simp only [List.map_cons, List.mem_cons] at h
    push_neg at h
    simp [setKey, Ne.symm h.1, ih h.2]

theorem lookupKey_foldSetKey {α : Type} (xs : List String) (f : String → α)
    (acc : List (String × α)) (y : String) :
    lookupKey (xs.foldl (fun a x => setKey a x (f x)) acc) y =
      if y ∈ xs then some (f y) else lookupKey acc y := by
  induction xs generalizing acc with
  | nil => simp
  | cons x xs ih =>
    simp only [List.foldl_cons, List.mem_cons]
    rw [ih]
    by_cases hy : y ∈ xs
    · simp [hy]
    · by_cases hyx : y = x
      · simp [hyx, hy, lookupKey_setKey_self]
      · simp [hyx, hy, lookupKey_setKey_ne _ _ _ _ hyx]

theorem foldSetKey_eq_append {α : Type} (xs : List String) (f : String → α)
    (acc : List (String × α)) (hdisj : ∀ x ∈ xs, x ∉ acc.map Prod.fst) (hnd : xs.Nodup) :
    xs.foldl (fun a x => setKey a x (f x)) acc = acc ++ xs.map (fun x => (x, f x)) := by
  induction xs generalizing acc with
  | nil => simp
  | cons x xs ih =>
    simp only [List.foldl_cons, List.map_cons]
    rw [setKey_of_not_mem acc x (f x) (hdisj x (List.mem_cons_self x xs))]
    rw [ih (acc ++ [(x, f x)])]
    · simp
    · intro y hy
      simp only [List.map_append, List.mem_append, List.map_cons, List.map_nil,
        List.mem_singleton, List.mem_cons]
      intro hmem
      rcases hmem with hmem | hmem
      · exact hdisj y (List.mem_cons_of_mem x hy) hmem
      · have he : y = x := by simpa using hmem
        simp only [List.nodup_cons] at hnd
        exact hnd.1 (he ▸ hy)
    · exact (List.nodup_cons.mp hnd).2

theorem lookupKey_of_mem_nodup {α : Type} (l : List (String × α)) (p : String × α)
    (hnd : (l.map Prod.fst).Nodup) (hp : p ∈ l) : lookupKey l p.1 = some p.2 := by
  induction l with
  | nil => simp at hp
  | cons q qs ih =>
    simp only [List.map_cons, List.nodup_cons] at hnd
    rcases List.mem_cons.mp hp with h | h
    · subst h; simp [lookupKey]
    · have hq : ¬ (q.1 = p.1) := by
        intro e
        exact hnd.1 (e ▸ List.mem_map_of_mem Prod.fst h)
      simp [lookupKey, hq, ih hnd.2 h]

/-- C10: `join` constructs its result without any row-index argument:
its index is the constructor's default natural sequence over the first
merged column's storage length (empty with no columns), and any view held
by either operand — an arbitrary reindex, a select, a sort, a slice, a
reverse — is discarded, so the result's visible rows are all storage rows
in storage order. -/
theorem join_discards_views (F G : DataFrame) (idx idx2 : List Nat)
    (cb : RowRecord → Bool) (c : String) (asc : Bool) (a b : Nat) :
    (F.join G).index =
      List.range ((((recordAssign F.columns G.columns).head?).map
        (fun p => p.2.values.length)).getD 0) ∧
    (F.reindex idx).join G = F.join G ∧
    F.join (G.reindex idx2) = F.join G ∧
    (F.select cb).join G = F.join G ∧
    (F.sort c asc).join G = F.join G ∧
    (F.slice a b).join G = F.join G ∧
    F.reverse.join G = F.join G := by
  refine ⟨?_, rfl, rfl, rfl, rfl, rfl, rfl⟩
  show defaultIndex (recordAssign F.columns G.columns) = _
  cases recordAssign F.columns G.columns with
  | nil => rfl
  | cons c cs => rfl

/-- C2 (code bug evaluated): the older revision's `reverse` runs
`this.index.reverse()`, and `Array.prototype.reverse` reverses the
receiver's index array in place — after the call the source frame itself
reads back its records reversed, contradicting the claim that no public
operation mutates its receiver.  The current revision copies first
(`slice().reverse()`) and leaves the receiver intact. -/
theorem reverse_mutates_receiver_old :
    dfN.records = [[("n", Value.num 1)], [("n", Value.num 2)]] ∧
    (reverseCallOld dfN).2.records = [[("n", Value.num 2)], [("n", Value.num 1)]] ∧
    (reverseCallOld dfN).2 ≠ dfN ∧
    (reverseCall dfN).2 = dfN :=
  ⟨by decide, by decide, by decide, rfl⟩

/-- C7 counterexample: `include(["z"])` on a frame without a column "z"
does not fail — no `UnknownColumn` (nor any other error type) exists in
the code — it returns a frame object whose "z" property is JavaScript
`undefined` (`column("z")` is an undefined lookup and `Object.assign`
copies the undefined-valued property). -/
theorem include_unknown_no_error_cex :
    (dfN.includeRaw ["z"]).columns = [("z", none)] ∧
    (dfN.includeRaw ["z"]).index = [0, 1] :=
  ⟨by decide, by decide⟩

/-- C7 (amended): `include` never errors: it returns a frame carrying the
current index in which every requested known name is bound to its column
and every unknown name is bound to an undefined column; `exclude`
silently ignores unknown names — it keeps exactly the known columns that
are not excluded, each bound to its original (defined) column. -/
theorem include_exclude_unknown (F : DataFrame) (names : List String)
    (hnd : F.names.Nodup) :
    (F.includeRaw names).index = F.index ∧
    (∀ x ∈ names, x ∉ F.names → lookupKey (F.includeRaw names).columns x = some none) ∧
    (∀ x ∈ names, x ∈ F.names → lookupKey (F.includeRaw names).columns x = some (F.column? x)) ∧
    (F.excludeRaw names).columns =
      (F.columns.filter (fun p => !(names.contains p.1))).map (fun p => (p.1, some p.2)) ∧
    (F.excludeRaw names).index = F.index := by
  refine ⟨rfl, ?_, ?_, ?_, rfl⟩
  · intro x hx hunk
    show lookupKey (names.foldl (fun acc y => setKey acc y (F.column? y)) []) x = some none
    rw [lookupKey_foldSetKey, if_pos hx]
    exact congrArg some (lookupKey_eq_none F.columns x hunk)
  · intro x hx _
    show lookupKey (names.foldl (fun acc y => setKey acc y (F.column? y)) []) x = some (F.column? x)
    rw [lookupKey_foldSetKey, if_pos hx]
  · show (F.names.filter (fun n => !(names.contains n))).foldl
        (fun acc y => setKey acc y (F.column? y)) [] = _
    rw [foldSetKey_eq_append _ _ [] (by simp) (hnd.filter _), List.nil_append]
    unfold DataFrame.names
    rw [List.filter_map, List.map_map]
    refine List.map_congr_left (fun p hp => ?_)
    have hmem : p ∈ F.columns := List.mem_of_mem_filter hp
    have := lookupKey_of_mem_nodup F.columns p hnd hmem
    simp only [Function.comp]
    show (p.1, F.column? p.1) = (p.1, some p.2)
    rw [show F.column? p.1 = some p.2 from this]


/-- Witness for C7: the amended include/exclude statement evaluated at
`[{n:1},{n:2}]` with names `["z","n"]`. -/
theorem include_exclude_unknown_witness :
    dfN.names.Nodup ∧
    (dfN.includeRaw ["z", "n"]).index = dfN.index ∧
    lookupKey (dfN.includeRaw ["z", "n"]).columns "z" = some none ∧
    (dfN.excludeRaw ["z", "n"]).columns =
      (dfN.columns.filter (fun p => !((["z", "n"] : List String).contains p.1))).map
        (fun p => (p.1, some p.2)) := by
  have h := include_exclude_unknown dfN ["z", "n"] (by decide)
  exact ⟨by decide, h.1, h.2.1 "z" (by decide) (by decide), h.2.2.2.1⟩

theorem series_values (a : List Value) : (series a).values = a := by
  unfold series
  split <;> rfl

theorem getV_foldAssign_not_mem (idx : List Nat) (g : Nat → Value) (a0 : List Value) (i : Nat)
    (h : i ∉ idx) :
    getV (idx.foldl (fun a j => assignAt a j (g j)) a0) i = getV a0 i := by
  induction idx generalizing a0 with
  | nil => rfl
  | cons j rest ih =>
    simp only [List.mem_cons] at h
    push_neg at h
    rw [List.foldl_cons, ih _ h.2, getV_assignAt_ne _ _ _ _ h.1]

theorem getV_foldAssign_mem (idx : List Nat) (g : Nat → Value) (a0 : List Value) (i : Nat)
    (h : i ∈ idx) :
    getV (idx.foldl (fun a j => assignAt a j (g j)) a0) i = g i := by
  induction idx generalizing a0 with
  | nil => simp at h
  | cons j rest ih =>
    rw [List.foldl_cons]
    by_cases hr : i ∈ rest
    · exact ih _ hr
    · have he : i = j := (List.mem_cons.mp h).resolve_right hr
      rw [getV_foldAssign_not_mem rest g _ i hr, he, getV_assignAt_self]

theorem getV_foldAssignIf_not_mem (idx : List Nat) (P : Nat → Bool) (g : Nat → Value)
    (a0 : List Value) (i : Nat) (h : i ∉ idx) :
    getV (idx.foldl (fun a j => if P j then assignAt a j (g j) else a) a0) i = getV a0 i := by
  induction idx generalizing a0 with
  | nil => rfl
  | cons j rest ih =>
    simp only [List.mem_cons] at h
    push_neg at h
    rw [List.foldl_cons, ih _ h.2]
    by_cases hp : P j
    · rw [if_pos hp, getV_assignAt_ne _ _ _ _ h.1]
    · rw [if_neg hp]

theorem getV_foldAssignIf_mem (idx : List Nat) (P : Nat → Bool) (g : Nat → Value)
    (a0 : List Value) (i : Nat) (h : i ∈ idx) :
    getV (idx.foldl (fun a j => if P j then assignAt a j (g j) else a) a0) i =
      if P i then g i else getV a0 i := by
  induction idx generalizing a0 with
  | nil => simp at h
  | cons j rest ih =>
    rw [List.foldl_cons]
    by_cases hr : i ∈ rest
    · rw [ih _ hr]
      by_cases hp : P i
      · rw [if_pos hp, if_pos hp]
      · rw [if_neg hp, if_neg hp]
        by_cases hij : i = j
        · rw [if_neg (hij ▸ hp)]
        · by_cases hpj : P j
          · rw [if_pos hpj, getV_assignAt_ne _ _ _ _ hij]
          · rw [if_neg hpj]
    · have he : i = j := (List.mem_cons.mp h).resolve_right hr
      subst he
      rw [getV_foldAssignIf_not_mem rest P g _ i hr]
      by_cases hp : P i
      · rw [if_pos hp, if_pos hp, getV_assignAt_self]
      · rw [if_neg hp, if_neg hp]

theorem getV_mem_or_undef (l : List Value) (i : Nat) :
    getV l i = Value.undef ∨ getV l i ∈ l := by
  induction l generalizing i with
  | nil => exact Or.inl (getV_nil i)
  | cons x xs ih =>
    cases i with
    | zero => exact Or.inr (List.mem_cons_self x xs)
    | succ n =>
      rw [getV_cons_succ]
      rcases ih n with h | h
      · exact Or.inl h
      · exact Or.inr (List.mem_cons_of_mem x h)

theorem amend_colStorage (F : DataFrame) (name : String) (cb : RowRecord → Value) :
    (F.amend name cb).colStorage name =
      F.index.foldl (fun a i => assignAt a i (cb (F.record i)))
        (List.replicate F.length Value.undef) := by
  show ((lookupKey (setKey F.columns name (series (F.index.foldl
      (fun a i => assignAt a i (cb (F.record i)))
      (List.replicate F.length Value.undef)))) name).map Column.values).getD [] = _
  rw [lookupKey_setKey_self]
  simp [series_values]

/-- C4 counterexample: after `slice(0,1)` on storage of length 2, `amend`
leaves the old column at storage length 2 while the new column has
storage length 1 — the resulting frame's storage length is NOT the
visible row count; and with a reversed view the new Series stores the
callback results at storage positions (here `[1, 2]`), not in visible-row
order (`[2, 1]`). -/
theorem amend_bakes_view_cex :
    (dfN.slice 0 1).length = 1 ∧
    (((dfN.slice 0 1).amend "m" (fun _ => Value.num 5)).column? "n").map
      (fun c => c.values.length) = some 2 ∧
    (((dfN.slice 0 1).amend "m" (fun _ => Value.num 5)).column? "m").map
      (fun c => c.values.length) = some 1 ∧
    ((dfN.reverse.amend "m" (fun r => (lookupKey r "n").getD Value.undef)).column? "m").map
      Column.values = some [Value.num 1, Value.num 2] ∧
    dfN.reverse.records.map (fun r => (lookupKey r "n").getD Value.undef) =
      [Value.num 2, Value.num 1] :=
  ⟨by decide, by decide, by decide, by decide, by decide⟩

/-- C4 (amended): `amend` assembles the record of every currently visible
row, applies the callback, and stores each result at that row's storage
position in a new Series (kind inferred from the stored array) installed
under `name`; the current index and all other columns are kept unchanged,
so the amended column's VISIBLE values are exactly the callback results in
visible-row order — but the new Series' storage is laid out by storage
position over `Array(this.length)`, so its length need not equal either
the visible row count or the old columns' storage length, and a prior
filter/slice is NOT baked in (the old columns keep their full storage and
the old view stays in force). -/
theorem amend_semantics (F : DataFrame) (name : String) (cb : RowRecord → Value) :
    (F.amend name cb).index = F.index ∧
    (∀ m, m ≠ name → (F.amend name cb).column? m = F.column? m) ∧
    (F.amend name cb).values name = F.records.map cb ∧
    (name ∉ F.names → (F.amend name cb).names = F.names ++ [name]) := by
  refine ⟨rfl, ?_, ?_, ?_⟩
  · intro m hm
    show lookupKey (setKey F.columns name _) m = _
    exact lookupKey_setKey_ne _ _ _ _ hm
  · have harr := amend_colStorage F name cb
    unfold DataFrame.values
    rw [show (F.amend name cb).index = F.index from rfl, harr]
    unfold DataFrame.records
    rw [List.map_map]
    refine List.map_congr_left (fun i hi => ?_)
    exact getV_foldAssign_mem F.index (fun j => cb (F.record j)) _ i hi
  · intro hnm
    show (setKey F.columns name _).map Prod.fst = _
    rw [setKey_of_not_mem _ _ _ hnm]
    simp [DataFrame.names]

/-- Witness for C4: the amended statement evaluated at `[{n:1},{n:2}]`
with a constant callback. -/
theorem amend_semantics_witness :
    (dfN.amend "m" (fun _ => Value.num 7)).values "m" =
      dfN.records.map (fun _ => Value.num 7) ∧
    (dfN.amend "m" (fun _ => Value.num 7)).column? "n" = dfN.column? "n" ∧
    (dfN.amend "m" (fun _ => Value.num 7)).names = ["n", "m"] := by
  refine ⟨(amend_semantics dfN "m" _).2.2.1, (amend_semantics dfN "m" _).2.1 "n" (by decide), ?_⟩
  have h := (amend_semantics dfN "m" (fun _ => Value.num 7)).2.2.2 (by decide)
  rw [h]
  decide

end DFrame

namespace DFrame

theorem setKey_map_fst_of_mem {α : Type} (l : List (String × α)) (k : String) (v : α)
    (h : k ∈ l.map Prod.fst) : (setKey l k v).map Prod.fst = l.map Prod.fst := by
  induction l with
  | nil => simp at h
  | cons p ps ih =>
    by_cases hp : p.1 = k
    · simp [setKey, hp]
    · have hm : k ∈ ps.map Prod.fst := by
        simp only [List.map_cons, List.mem_cons] at h
        exact h.resolve_left (fun e => hp e.symm)
      simp [setKey, hp, ih hm]

theorem derive_core (F : DataFrame) (name : String) (cb : Value → Value) :
    (F.derive name cb).index = F.index ∧
    (∀ m, m ≠ name → (F.derive name cb).column? m = F.column? m) ∧
    (F.derive name cb).values name =
      (F.values name).map (fun v => if v = Value.undef then Value.undef else cb v) ∧
    (name ∈ F.names → (F.derive name cb).names = F.names) := by
  refine ⟨rfl, ?_, ?_, ?_⟩
  · intro m hm
    show lookupKey (setKey F.columns name _) m = _
    exact lookupKey_setKey_ne _ _ _ _ hm
  · have hcol : (F.derive name cb).colStorage name = (F.generate name cb).values := by
      show ((lookupKey (setKey F.columns name (F.generate name cb)) name).map
        Column.values).getD [] = _
      rw [lookupKey_setKey_self]
      rfl
    unfold DataFrame.values
    rw [show (F.derive name cb).index = F.index from rfl, hcol, List.map_map]
    refine List.map_congr_left (fun i hi => ?_)
    show getV (F.index.foldl (fun a j =>
        if getV (F.colStorage name) j != Value.undef
          then assignAt a j (cb (getV (F.colStorage name) j)) else a)
        (List.replicate (F.colStorage name).length Value.undef)) i =
      (fun v => if v = Value.undef then Value.undef else cb v) (getV (F.colStorage name) i)
    rw [getV_foldAssignIf_mem F.index _ _ _ i hi]
    by_cases hv : getV (F.colStorage name) i = Value.undef
    · simp [hv, getV_replicate_undef]
    · simp [hv]
  · intro hmem
    show (setKey F.columns name _).map Prod.fst = _
    exact setKey_map_fst_of_mem _ _ _ hmem

theorem values_map_congr (F : DataFrame) (name : String) (f g : Value → Value)
    (hf : f Value.undef = g Value.undef)
    (h : ∀ v ∈ F.colStorage name, f v = g v) :
    (F.values name).map f = (F.values name).map g := by
  unfold DataFrame.values
  rw [List.map_map, List.map_map]
  refine List.map_congr_left (fun i _ => ?_)
  rcases getV_mem_or_undef (F.colStorage name) i with hv | hv
  · show f (getV (F.colStorage name) i) = g (getV (F.colStorage name) i)
    rw [hv, hf]
  · exact h _ hv

/-- C9: `log`, `scale` and `add` are elementwise transforms of one
numeric column: the current view and every other column are unchanged,
the column set is unchanged, and the visible values of the named column
equal the old visible values transformed pointwise — the `Math.log`
primitive (`logV`) for `log`, multiplication by `factor` for `scale`,
addition of `operand` for `add` — with absent values staying absent. -/
theorem derive_family_elementwise (F : DataFrame) (name : String)
    (logV co : Value → Value) (factor operand : Rat)
    (hname : name ∈ F.names)
    (hnum : ∀ v ∈ F.colStorage name, numOk v = true) :
    ((F.log logV name).index = F.index ∧
      (∀ m, m ≠ name → (F.log logV name).column? m = F.column? m) ∧
      (F.log logV name).names = F.names ∧
      (F.log logV name).values name =
        (F.values name).map (fun v => if v = Value.undef then Value.undef else logV v)) ∧
    ((F.scale co name factor).index = F.index ∧
      (∀ m, m ≠ name → (F.scale co name factor).column? m = F.column? m) ∧
      (F.scale co name factor).names = F.names ∧
      (F.scale co name factor).values name = (F.values name).map (fun v =>
        match v with
        | Value.num q => Value.num (q * factor)
        | _ => Value.undef)) ∧
    ((F.add co name operand).index = F.index ∧
      (∀ m, m ≠ name → (F.add co name operand).column? m = F.column? m) ∧
      (F.add co name operand).names = F.names ∧
      (F.add co name operand).values name = (F.values name).map (fun v =>
        match v with
        | Value.num q => Value.num (q + operand)
        | _ => Value.undef)) := by
  have hlog := derive_core F name logV
  have hsc := derive_core F name (DataFrame.mulCB co factor)
  have had := derive_core F name (DataFrame.addCB co operand)
  refine ⟨⟨hlog.1, hlog.2.1, hlog.2.2.2 hname, hlog.2.2.1⟩,
          ⟨hsc.1, hsc.2.1, hsc.2.2.2 hname, ?_⟩,
          ⟨had.1, had.2.1, had.2.2.2 hname, ?_⟩⟩
  · show (F.derive name (DataFrame.mulCB co factor)).values name = _
    rw [hsc.2.2.1]
    refine values_map_congr F name _ _ rfl (fun v hv => ?_)
    have hn := hnum v hv
    cases v with
    | num q => rfl
    | undef => rfl
    | str s => simp [numOk] at hn
    | bool b => simp [numOk] at hn
    | obj o => simp [numOk] at hn
  · show (F.derive name (DataFrame.addCB co operand)).values name = _
    rw [had.2.2.1]
    refine values_map_congr F name _ _ rfl (fun v hv => ?_)
    have hn := hnum v hv
    cases v with
    | num q => rfl
    | undef => rfl
    | str s => simp [numOk] at hn
    | bool b => simp [numOk] at hn
    | obj o => simp [numOk] at hn

/-- Witness for C9: the statement evaluated at `[{n:1},{n:2}]`, column
"n", factor 3, operand 5, identity stand-ins for the external callbacks. -/
theorem derive_family_elementwise_witness :
    ((dfN.scale id "n" 3).values "n" = (dfN.values "n").map (fun v =>
      match v with
      | Value.num q => Value.num (q * 3)
      | _ => Value.undef)) ∧
    (dfN.add id "n" 5).index = dfN.index ∧
    (dfN.log id "n").names = dfN.names :=
  ⟨(derive_family_elementwise dfN "n" id id 3 5 (by decide) (by decide)).2.1.2.2.2,
   (derive_family_elementwise dfN "n" id id 3 5 (by decide) (by decide)).2.2.1,
   (derive_family_elementwise dfN "n" id id 3 5 (by decide) (by decide)).1.2.2.1⟩

end DFrame

namespace DFrame

theorem insertPair_perm (lt : (Nat × Value) → (Nat × Value) → Bool) (a : Nat × Value)
    (l : List (Nat × Value)) : (DataFrame.insertPair lt a l).Perm (a :: l) := by
  induction l with
  | nil => exact List.Perm.refl _
  | cons b bs ih =>
    by_cases h : lt a b
    · rw [DataFrame.insertPair, if_pos h]
    · rw [DataFrame.insertPair, if_neg h]
      exact (ih.cons b).trans (List.Perm.swap a b bs)

theorem mem_insertPair (lt : (Nat × Value) → (Nat × Value) → Bool) (a p : Nat × Value)
    (l : List (Nat × Value)) (h : p ∈ DataFrame.insertPair lt a l) : p = a ∨ p ∈ l := by
  have := (insertPair_perm lt a l).mem_iff.mp h
  simpa using this

theorem foldInsert_perm (lt : (Nat × Value) → (Nat × Value) → Bool)
    (l acc : List (Nat × Value)) :
    (l.foldl (fun acc x => DataFrame.insertPair lt x acc) acc).Perm (acc ++ l) := by
  induction l generalizing acc with
  | nil => simp
  | cons x xs ih =>
    rw [List.foldl_cons]
    exact (ih _).trans (((insertPair_perm lt x acc).append_right xs).trans
      List.perm_middle.symm)

theorem sortPairs_perm (lt : (Nat × Value) → (Nat × Value) → Bool)
    (l : List (Nat × Value)) : (DataFrame.sortPairs lt l).Perm l := by
  simpa using foldInsert_perm lt l []

theorem insertPair_chain (lt : (Nat × Value) → (Nat × Value) → Bool)
    (key : (Nat × Value) → Rat) (x : Nat × Value) (acc : List (Nat × Value))
    (hx : ∀ b ∈ acc, lt x b = decide (key x < key b))
    (hchain : acc.Chain' (fun a b => key a ≤ key b)) :
    (DataFrame.insertPair lt x acc).Chain' (fun a b => key a ≤ key b) := by
  induction acc with
  | nil => simp [DataFrame.insertPair]
  | cons b bs ih =>
    have hb := hx b (List.mem_cons_self b bs)
    by_cases h : lt x b
    · rw [DataFrame.insertPair, if_pos h]
      have hlt : key x < key b := by
        have := hb ▸ h
        simpa using this
      exact hchain.cons (le_of_lt hlt)
    · rw [DataFrame.insertPair, if_neg h]
      have hge : key b ≤ key x := by
        have : ¬ (key x < key b) := by
          intro hc
          exact h (hb ▸ (decide_eq_true hc))
        exact le_of_not_lt this
      have htail : (DataFrame.insertPair lt x bs).Chain' (fun a b => key a ≤ key b) :=
        ih (fun c hc => hx c (List.mem_cons_of_mem b hc)) hchain.tail
      rw [List.chain'_cons']
      refine ⟨?_, htail⟩
      intro h1 hh
      cases bs with
      | nil =>
        have he : x = h1 := by simpa [DataFrame.insertPair] using hh
        rw [← he]
        exact hge
      | cons c cs =>
        by_cases h2 : lt x c
        · rw [DataFrame.insertPair, if_pos h2] at hh
          have he : x = h1 := by simpa using hh
          rw [← he]
          exact hge
        · rw [DataFrame.insertPair, if_neg h2] at hh
          have he : c = h1 := by simpa using hh
          rw [← he]
          exact (List.chain'_cons.mp hchain).1

theorem sortPairs_chain (lt : (Nat × Value) → (Nat × Value) → Bool)
    (key : (Nat × Value) → Rat) (l : List (Nat × Value))
    (hl : ∀ a ∈ l, ∀ b ∈ l, lt a b = decide (key a < key b)) :
    (DataFrame.sortPairs lt l).Chain' (fun a b => key a ≤ key b) := by
  have main : ∀ (xs acc : List (Nat × Value)),
      (∀ a ∈ xs, a ∈ l) → (∀ b ∈ acc, b ∈ l) →
      acc.Chain' (fun a b => key a ≤ key b) →
      (xs.foldl (fun acc x => DataFrame.insertPair lt x acc) acc).Chain'
        (fun a b => key a ≤ key b) := by
    intro xs
    induction xs with
    | nil => intro acc _ _ h; exact h
    | cons x xs ih =>
      intro acc hxs hacc hchain
      rw [List.foldl_cons]
      refine ih _ (fun a ha => hxs a (List.mem_cons_of_mem x ha)) ?_ ?_
      · intro b hb
        rcases mem_insertPair lt x b acc hb with e | hb2
        · exact e ▸ hxs x (List.mem_cons_self x xs)
        · exact hacc b hb2
      · exact insertPair_chain lt key x acc
          (fun b hb => hl x (hxs x (List.mem_cons_self x xs)) b (hacc b hb)) hchain
  exact main l [] (fun a ha => ha) (by simp) List.chain'_nil

theorem orZero_numOk (v : Value) (h : numOk v = true) :
    DataFrame.orZero v = Value.num (toQ v) := by
  cases v with
  | num q =>
    by_cases hq : q = 0
    · simp [DataFrame.orZero, DataFrame.jsFalsy, hq, toQ]
    · simp [DataFrame.orZero, DataFrame.jsFalsy, hq, toQ]
  | undef => rfl
  | str s => simp [numOk] at h
  | bool b => simp [numOk] at h
  | obj o => simp [numOk] at h

theorem jsLt_numOk (a b : Value) (ha : numOk a = true) (hb : numOk b = true) :
    DataFrame.jsLt (DataFrame.orZero a) (DataFrame.orZero b) = decide (toQ a < toQ b) := by
  rw [orZero_numOk a ha, orZero_numOk b hb]
  rfl

end DFrame

namespace DFrame

/-- C8: `sort(column, ascending)` reorders exactly the currently visible
rows — the new index is a permutation of the current one and column
storage is shared — so that the named column's values run monotonically,
a missing value comparing as numeric zero (the comparator's `|| 0`);
`ascending = false` flips the operands of the comparison rather than
reversing the final order.  Concretely, records `[{k:2},{k:1}]` sorted by
`k` ascending read back `[{k:1},{k:2}]`. -/
theorem sort_orders_visible (F : DataFrame) (c : String)
    (hnum : ∀ v ∈ F.colStorage c, numOk v = true) :
    (F.sort c true).columns = F.columns ∧
    (F.sort c false).columns = F.columns ∧
    (F.sort c true).index.Perm F.index ∧
    (F.sort c false).index.Perm F.index ∧
    (F.sort c true).index.Chain'
      (fun i j => toQ (getV (F.colStorage c) i) ≤ toQ (getV (F.colStorage c) j)) ∧
    (F.sort c false).index.Chain'
      (fun i j => toQ (getV (F.colStorage c) j) ≤ toQ (getV (F.colStorage c) i)) ∧
    (dfK.sort "k" true).records = [[("k", Value.num 1)], [("k", Value.num 2)]] := by
  have hzip : ∀ a ∈ F.index.map (fun i => (i, getV (F.colStorage c) i)),
      a.2 = getV (F.colStorage c) a.1 ∧ numOk a.2 = true := by
    intro a ha
    obtain ⟨i, _, rfl⟩ := List.mem_map.mp ha
    refine ⟨rfl, ?_⟩
    rcases getV_mem_or_undef (F.colStorage c) i with hv | hv
    · rw [hv]; rfl
    · exact hnum _ hv
  have hfst : (F.index.map (fun i => (i, getV (F.colStorage c) i))).map Prod.fst = F.index := by
    rw [List.map_map]
    have hc : (Prod.fst ∘ fun i : Nat => (i, getV (F.colStorage c) i)) = fun i => i := rfl
    rw [hc]
    exact List.map_id' F.index
  refine ⟨rfl, rfl, ?_, ?_, ?_, ?_, by decide⟩
  · show ((DataFrame.sortPairs
        (fun a b => DataFrame.jsLt (DataFrame.orZero a.2) (DataFrame.orZero b.2))
        (F.index.map (fun i => (i, getV (F.colStorage c) i)))).map Prod.fst).Perm F.index
    have hp := (sortPairs_perm
      (fun a b => DataFrame.jsLt (DataFrame.orZero a.2) (DataFrame.orZero b.2))
      (F.index.map (fun i => (i, getV (F.colStorage c) i)))).map Prod.fst
    rw [hfst] at hp
    exact hp
  · show ((DataFrame.sortPairs
        (fun a b => DataFrame.jsLt (DataFrame.orZero b.2) (DataFrame.orZero a.2))
        (F.index.map (fun i => (i, getV (F.colStorage c) i)))).map Prod.fst).Perm F.index
    have hp := (sortPairs_perm
      (fun a b => DataFrame.jsLt (DataFrame.orZero b.2) (DataFrame.orZero a.2))
      (F.index.map (fun i => (i, getV (F.colStorage c) i)))).map Prod.fst
    rw [hfst] at hp
    exact hp
  · show (((DataFrame.sortPairs
        (fun a b => DataFrame.jsLt (DataFrame.orZero a.2) (DataFrame.orZero b.2))
        (F.index.map (fun i => (i, getV (F.colStorage c) i)))).map Prod.fst).Chain'
      (fun i j => toQ (getV (F.colStorage c) i) ≤ toQ (getV (F.colStorage c) j)))
    rw [List.chain'_map]
    refine sortPairs_chain _ (fun p => toQ (getV (F.colStorage c) p.1)) _ ?_
    intro a ha b hb
    obtain ⟨ha2, han⟩ := hzip a ha
    obtain ⟨hb2, hbn⟩ := hzip b hb
    show DataFrame.jsLt (DataFrame.orZero a.2) (DataFrame.orZero b.2) =
      decide (toQ (getV (F.colStorage c) a.1) < toQ (getV (F.colStorage c) b.1))
    rw [jsLt_numOk a.2 b.2 han hbn, ha2, hb2]
  · show (((DataFrame.sortPairs
        (fun a b => DataFrame.jsLt (DataFrame.orZero b.2) (DataFrame.orZero a.2))
        (F.index.map (fun i => (i, getV (F.colStorage c) i)))).map Prod.fst).Chain'
      (fun i j => toQ (getV (F.colStorage c) j) ≤ toQ (getV (F.colStorage c) i)))
    rw [List.chain'_map]
    have hchain := sortPairs_chain
      (fun a b => DataFrame.jsLt (DataFrame.orZero b.2) (DataFrame.orZero a.2))
      (fun p => -(toQ (getV (F.colStorage c) p.1)))
      (F.index.map (fun i => (i, getV (F.colStorage c) i))) ?_
    · refine hchain.imp ?_
      intro a b hab
      exact neg_le_neg_iff.mp hab
    · intro a ha b hb
      obtain ⟨ha2, han⟩ := hzip a ha
      obtain ⟨hb2, hbn⟩ := hzip b hb
      show DataFrame.jsLt (DataFrame.orZero b.2) (DataFrame.orZero a.2) =
        decide (-(toQ (getV (F.colStorage c) a.1)) < -(toQ (getV (F.colStorage c) b.1)))
      rw [jsLt_numOk b.2 a.2 hbn han, ha2, hb2]
      apply decide_eq_decide.mpr
      exact (neg_lt_neg_iff).symm

/-- Witness for C8: the statement evaluated at the concrete sorting case
`[{k:2},{k:1}]`. -/
theorem sort_orders_visible_witness :
    (dfK.sort "k" true).index.Perm dfK.index ∧
    (dfK.sort "k" true).records = [[("k", Value.num 1)], [("k", Value.num 2)]] :=
  ⟨(sort_orders_visible dfK "k" (by decide)).2.2.1,
   (sort_orders_visible dfK "k" (by decide)).2.2.2.2.2.2⟩

end DFrame

namespace DFrame

/-- C3 counterexample: with this frame holding a numeric column `n` AND a
text column `s`, the correlation matrix's row-name column lists ALL of the
frame's column names `["n","s"]`, not only the numeric ones `["n"]` as the
claim states (the code takes `this.names` wholesale and likewise uses full
storage — its own TODO notes the index is not applied). -/
theorem correlationMatrix_numeric_names_cex :
    ((dfMix.correlationMatrix dfM (fun _ _ => 0)).column? "Name").map Column.values =
      some [Value.str "n", Value.str "s"] ∧
    [Value.str "n", Value.str "s"] ≠ [Value.str "n"] :=
  ⟨by decide, by decide⟩

/-- C3 (amended): `correlationMatrix(other)` returns a frame whose leading
"Name" text column lists ALL of this frame's column names (numeric or
not), with one further numeric column per column name of `other` (again
all of them), and the cell at (row A, column B) applies the external
correlation primitive to the two columns' FULL STORAGE arrays
(`sc.values`, `sr.values`) — not to the currently visible rows; the
code's TODO comment records that the index is not yet applied. -/
theorem correlationMatrix_full_storage (F G : DataFrame)
    (corr : List Value → List Value → Rat)
    (hnd : G.names.Nodup) (hname : "Name" ∉ G.names) :
    ((F.correlationMatrix G corr).column? "Name").map Column.values =
      some (F.names.map Value.str) ∧
    (F.correlationMatrix G corr).names = "Name" :: G.names ∧
    (∀ B ∈ G.names, ((F.correlationMatrix G corr).column? B).map Column.values =
      some (F.names.map (fun A => Value.num (corr (G.colStorage B) (F.colStorage A))))) := by
  have hd : ∀ x ∈ G.names,
      x ∉ ([("Name", Column.mk ColKind.text (F.names.map Value.str))].map Prod.fst) := by
    intro x hx
    simp only [List.map_cons, List.map_nil, List.mem_singleton]
    exact fun e => hname (e ▸ hx)
  have hcols : (F.correlationMatrix G corr).columns =
      ("Name", Column.mk ColKind.text (F.names.map Value.str)) ::
        G.names.map (fun B => (B, Column.mk ColKind.num
          (F.names.map (fun A => Value.num (corr (G.colStorage B) (F.colStorage A)))))) :=
    foldSetKey_eq_append G.names
      (fun B => Column.mk ColKind.num
        (F.names.map (fun A => Value.num (corr (G.colStorage B) (F.colStorage A)))))
      [("Name", Column.mk ColKind.text (F.names.map Value.str))] hd hnd
  have hmapfst : (G.names.map (fun B => (B, Column.mk ColKind.num
      (F.names.map (fun A => Value.num (corr (G.colStorage B) (F.colStorage A))))))).map
        Prod.fst = G.names := by
    rw [List.map_map]
    have hc : (Prod.fst ∘ fun B => (B, Column.mk ColKind.num
        (F.names.map (fun A => Value.num (corr (G.colStorage B) (F.colStorage A)))))) =
        fun B : String => B := rfl
    rw [hc]
    exact List.map_id' G.names
  refine ⟨?_, ?_, ?_⟩
  · show (lookupKey (F.correlationMatrix G corr).columns "Name").map Column.values = _
    rw [hcols]
    rfl
  · show ((F.correlationMatrix G corr).columns).map Prod.fst = _
    rw [hcols, List.map_cons, hmapfst]
  · intro B hB
    have hne : ¬ (("Name" : String) = B) := fun e => hname (e ▸ hB)
    show (lookupKey (F.correlationMatrix G corr).columns B).map Column.values = _
    rw [hcols]
    simp only [lookupKey]
    rw [if_neg (by simpa using hne)]
    have hmem : (B, Column.mk ColKind.num
        (F.names.map (fun A => Value.num (corr (G.colStorage B) (F.colStorage A))))) ∈
        G.names.map (fun B => (B, Column.mk ColKind.num
          (F.names.map (fun A => Value.num (corr (G.colStorage B) (F.colStorage A)))))) :=
      List.mem_map_of_mem _ hB
    rw [lookupKey_of_mem_nodup _ _ (by rw [hmapfst]; exact hnd) hmem]
    rfl

/-- Witness for C3: the amended statement evaluated at the mixed-column
frame against the one-column frame with a constant stand-in correlation. -/
theorem correlationMatrix_full_storage_witness :
    ((dfMix.correlationMatrix dfM (fun _ _ => 0)).column? "Name").map Column.values =
      some (dfMix.names.map Value.str) ∧
    (dfMix.correlationMatrix dfM (fun _ _ => 0)).names = "Name" :: dfM.names ∧
    ((dfMix.correlationMatrix dfM (fun _ _ => 0)).column? "m").map Column.values =
      some (dfMix.names.map (fun A =>
        Value.num ((fun _ _ => (0 : Rat)) (dfM.colStorage "m") (dfMix.colStorage A)))) :=
  ⟨(correlationMatrix_full_storage dfMix dfM (fun _ _ => 0) (by decide) (by decide)).1,
   (correlationMatrix_full_storage dfMix dfM (fun _ _ => 0) (by decide) (by decide)).2.1,
   (correlationMatrix_full_storage dfMix dfM (fun _ _ => 0) (by decide) (by decide)).2.2
     "m" (by decide)⟩

end DFrame

namespace DFrame

theorem idxOf_some (l : List Value) (v : Value) (t : Nat)
    (h : DataFrame.idxOf l v = some t) : getV l t = v ∧ t < l.length := by
  induction l generalizing t with
  | nil => simp [DataFrame.idxOf] at h
  | cons x xs ih =>
    by_cases hx : x = v
    · rw [DataFrame.idxOf, if_pos (by simpa using hx)] at h
      cases h
      exact ⟨hx, Nat.succ_pos _⟩
    · rw [DataFrame.idxOf, if_neg (by simpa using hx)] at h
      cases hrec : DataFrame.idxOf xs v with
      | none => rw [hrec] at h; simp at h
      | some t' =>
        rw [hrec] at h
        simp only [Option.map_some', Option.some.injEq] at h
        subst h
        obtain ⟨h1, h2⟩ := ih t' hrec
        exact ⟨h1, Nat.succ_lt_succ h2⟩

theorem lookupKey_foldPairs_not_mem {α : Type} (b : List (String × α))
    (a : List (String × α)) (k : String) (h : k ∉ b.map Prod.fst) :
    lookupKey (b.foldl (fun acc p => setKey acc p.1 p.2) a) k = lookupKey a k := by
  induction b generalizing a with
  | nil => rfl
  | cons p ps ih =>
    simp only [List.map_cons, List.mem_cons] at h
    push_neg at h
    rw [List.foldl_cons, ih _ h.2, lookupKey_setKey_ne _ _ _ _ h.1]

theorem lookupKey_recordAssign_nodup {α : Type} (a b : List (String × α)) (k : String)
    (hnd : (b.map Prod.fst).Nodup) (h : k ∈ b.map Prod.fst) :
    lookupKey (recordAssign a b) k = lookupKey b k := by
  induction b generalizing a with
  | nil => simp at h
  | cons p ps ih =>
    simp only [List.map_cons, List.nodup_cons] at hnd
    by_cases hk : k = p.1
    · show lookupKey (recordAssign (setKey a p.1 p.2) ps) k = _
      unfold recordAssign
      rw [lookupKey_foldPairs_not_mem ps _ k (hk ▸ hnd.1), hk, lookupKey_setKey_self]
      simp [lookupKey]
    · have hk2 : k ∈ ps.map Prod.fst := by
        simp only [List.map_cons, List.mem_cons] at h
        exact h.resolve_left hk
      show lookupKey (recordAssign (setKey a p.1 p.2) ps) k = _
      rw [ih _ hnd.2 hk2]
      simp [lookupKey, Ne.symm hk]

theorem foldMatch_eq_filterMap (keys : List Value) (target source : List Value)
    (acc : List (Option Nat × Nat)) :
    keys.foldl (fun acc key =>
      match DataFrame.idxOf target key with
      | some t => acc ++ [(DataFrame.idxOf source key, t)]
      | none => acc) acc =
    acc ++ keys.filterMap (fun key => (DataFrame.idxOf target key).map
      (fun t => (DataFrame.idxOf source key, t))) := by
  induction keys generalizing acc with
  | nil => simp
  | cons k ks ih =>
    rw [List.foldl_cons, List.filterMap_cons]
    cases ht : DataFrame.idxOf target k with
    | none => simpa [ht] using ih acc
    | some t =>
      simp only [ht, Option.map_some']
      rw [ih (acc ++ [(DataFrame.idxOf source k, t)])]
      simp

theorem getV_foldAssignPairs (rm : List (Option Nat × Nat))
    (val : Option Nat × Nat → Value) (a0 : List Value) (t : Nat)
    (huniq : ∀ p ∈ rm, ∀ q ∈ rm, p.2 = t → q.2 = t → p = q) :
    getV (rm.foldl (fun vs p => assignAt vs p.2 (val p)) a0) t =
      match rm.find? (fun p => p.2 == t) with
      | some p => val p
      | none => getV a0 t := by
  induction rm generalizing a0 with
  | nil => rfl
  | cons p ps ih =>
    have huniq' : ∀ a ∈ ps, ∀ b ∈ ps, a.2 = t → b.2 = t → a = b :=
      fun a ha b hb => huniq a (List.mem_cons_of_mem p ha) b (List.mem_cons_of_mem p hb)
    by_cases hp : p.2 = t
    · rw [List.foldl_cons, ih _ huniq', List.find?_cons_of_pos _ (by simpa using hp)]
      cases hfind : ps.find? (fun q => q.2 == t) with
      | some q =>
        have hqm : q ∈ ps := List.mem_of_find?_eq_some hfind
        have hqt : q.2 = t := by simpa using List.find?_some hfind
        rw [huniq q (List.mem_cons_of_mem p hqm) p (List.mem_cons_self p ps) hqt hp]
      | none =>
        rw [← hp, getV_assignAt_self]
    · rw [List.foldl_cons, ih _ huniq', List.find?_cons_of_neg _ (by simpa using hp)]
      cases hfind : ps.find? (fun q => q.2 == t) with
      | some q => rfl
      | none => rw [getV_assignAt_ne _ _ _ _ (fun e => hp e.symm)]

theorem rowmapFind (keys : List Value) (target source : List Value) (t : Nat) :
    (keys.filterMap (fun key => (DataFrame.idxOf target key).map
      (fun t' => (DataFrame.idxOf source key, t')))).find? (fun p => p.2 == t) =
    (keys.find? (fun k => DataFrame.idxOf target k == some t)).map
      (fun k => (DataFrame.idxOf source k, t)) := by
  induction keys with
  | nil => rfl
  | cons k ks ih =>
    rw [List.filterMap_cons]
    cases ht : DataFrame.idxOf target k with
    | none =>
      rw [List.find?_cons_of_neg _ (by simp [ht])]
      exact ih
    | some t' =>
      simp only [Option.map_some']
      by_cases htt : t' = t
      · subst htt
        rw [List.find?_cons_of_pos _ (by simp), List.find?_cons_of_pos _ (by simp [ht])]
        rfl
      · rw [List.find?_cons_of_neg _ (by simpa using htt),
          List.find?_cons_of_neg _ (by simp [ht, htt])]
        exact ih

end DFrame

namespace DFrame

theorem leftJoin_cell (target source col keys : List Value) (t : Nat) :
    getV ((keys.foldl (fun acc key =>
        match DataFrame.idxOf target key with
        | some t => acc ++ [(DataFrame.idxOf source key, t)]
        | none => acc) []).foldl
      (fun vs p => assignAt vs p.2 (DataFrame.getVO col p.1)) []) t =
    match keys.find? (fun k => DataFrame.idxOf target k == some t) with
    | some k => DataFrame.getVO col (DataFrame.idxOf source k)
    | none => Value.undef := by
  rw [foldMatch_eq_filterMap keys target source [], List.nil_append]
  have huniq : ∀ p ∈ keys.filterMap (fun key => (DataFrame.idxOf target key).map
      (fun t' => (DataFrame.idxOf source key, t'))),
      ∀ q ∈ keys.filterMap (fun key => (DataFrame.idxOf target key).map
      (fun t' => (DataFrame.idxOf source key, t'))), p.2 = t → q.2 = t → p = q := by
    intro p hp q hq hpt hqt
    obtain ⟨k1, hk1, hg1⟩ := List.mem_filterMap.mp hp
    obtain ⟨k2, hk2, hg2⟩ := List.mem_filterMap.mp hq
    cases h1 : DataFrame.idxOf target k1 with
    | none => rw [h1] at hg1; simp at hg1
    | some t1 =>
      cases h2 : DataFrame.idxOf target k2 with
      | none => rw [h2] at hg2; simp at hg2
      | some t2 =>
        rw [h1] at hg1
        rw [h2] at hg2
        simp only [Option.map_some', Option.some.injEq] at hg1 hg2
        have ht1 : t1 = t := by rw [← hg1] at hpt; simpa using hpt
        have ht2 : t2 = t := by rw [← hg2] at hqt; simpa using hqt
        rw [ht1] at h1
        rw [ht2] at h2
        have e1 := (idxOf_some target k1 t h1).1
        have e2 := (idxOf_some target k2 t h2).1
        rw [← hg1, ← hg2, ht1, ht2, ← e1, ← e2]
  rw [getV_foldAssignPairs _ _ [] t huniq, rowmapFind keys target source t]
  cases hf : keys.find? (fun k => DataFrame.idxOf target k == some t) with
  | some k => rfl
  | none => exact getV_nil t

end DFrame

namespace DFrame

/-- C5: for each key value visible in `other`'s key column, `leftJoin`
pairs the first storage position of that key in `other`'s key column with
the first storage position in this frame's key column; a key with no
occurrence in this frame contributes nothing; each non-key column of
`other` appears in the result holding `other`'s value at every matched
target position and absent at every other position.  Concretely, with
this frame's keys `["x","y"]` and other's keys `["y","z"]` with payload
`p=[10,20]`, the result's new `p` column reads `[absent, 10]`. -/
theorem leftJoin_first_occurrence (F G : DataFrame) (name n : String)
    (hn : n ∈ G.names) (hne : n ≠ name) (hnd : G.names.Nodup) :
    (((F.leftJoin G name).column? n).isSome ∧
      (∀ t : Nat, getV ((F.leftJoin G name).colStorage n) t = specLeftJoinCell F G name n t)) ∧
    (dfJoinL.leftJoin dfJoinR "k").values "p" = [Value.undef, Value.num 10] := by
  have hfilter_mem : n ∈ G.names.filter (fun m => m != name) :=
    List.mem_filter.mpr ⟨hn, by simpa using hne⟩
  have hfilter_nd : (G.names.filter (fun m => m != name)).Nodup := hnd.filter _
  have hcols2 : ((G.names.filter (fun m => m != name)).foldl
      (fun acc m => setKey acc m (series (((G.values name).foldl (fun acc key =>
          match DataFrame.idxOf (F.colStorage name) key with
          | some t => acc ++ [(DataFrame.idxOf (G.colStorage name) key, t)]
          | none => acc) []).foldl
        (fun vs p => assignAt vs p.2 (DataFrame.getVO (G.colStorage m) p.1)) []))) []) =
      (G.names.filter (fun m => m != name)).map (fun m =>
        (m, series (((G.values name).foldl (fun acc key =>
            match DataFrame.idxOf (F.colStorage name) key with
            | some t => acc ++ [(DataFrame.idxOf (G.colStorage name) key, t)]
            | none => acc) []).foldl
          (fun vs p => assignAt vs p.2 (DataFrame.getVO (G.colStorage m) p.1)) []))) := by
    have h := foldSetKey_eq_append (G.names.filter (fun m => m != name))
      (fun m => series (((G.values name).foldl (fun acc key =>
          match DataFrame.idxOf (F.colStorage name) key with
          | some t => acc ++ [(DataFrame.idxOf (G.colStorage name) key, t)]
          | none => acc) []).foldl
        (fun vs p => assignAt vs p.2 (DataFrame.getVO (G.colStorage m) p.1)) []))
      [] (by simp) hfilter_nd
    rw [List.nil_append] at h
    exact h
  have hmapfst2 : (((G.names.filter (fun m => m != name)).map (fun m =>
      (m, series (((G.values name).foldl (fun acc key =>
        match DataFrame.idxOf (F.colStorage name) key with
        | some t => acc ++ [(DataFrame.idxOf (G.colStorage name) key, t)]
        | none => acc) []).foldl
      (fun vs p => assignAt vs p.2 (DataFrame.getVO (G.colStorage m) p.1)) [])))).map
      Prod.fst) = G.names.filter (fun m => m != name) := by
    rw [List.map_map]
    exact List.map_id' _
  have hcolumn : (F.leftJoin G name).column? n = some (series (((G.values name).foldl
      (fun acc key =>
        match DataFrame.idxOf (F.colStorage name) key with
        | some t => acc ++ [(DataFrame.idxOf (G.colStorage name) key, t)]
        | none => acc) []).foldl
      (fun vs p => assignAt vs p.2 (DataFrame.getVO (G.colStorage n) p.1)) [])) := by
    show lookupKey (recordAssign F.columns ((G.names.filter (fun m => m != name)).foldl
      (fun acc m => setKey acc m (series (((G.values name).foldl (fun acc key =>
          match DataFrame.idxOf (F.colStorage name) key with
          | some t => acc ++ [(DataFrame.idxOf (G.colStorage name) key, t)]
          | none => acc) []).foldl
        (fun vs p => assignAt vs p.2 (DataFrame.getVO (G.colStorage m) p.1)) []))) [])) n = _
    rw [hcols2]
    rw [lookupKey_recordAssign_nodup F.columns _ n (by rw [hmapfst2]; exact hfilter_nd)
      (by rw [hmapfst2]; exact hfilter_mem)]
    exact lookupKey_of_mem_nodup _ _ (by rw [hmapfst2]; exact hfilter_nd)
      (List.mem_map_of_mem _ hfilter_mem)
  refine ⟨⟨by rw [hcolumn]; rfl, ?_⟩, by decide⟩
  intro t
  have hstor : (F.leftJoin G name).colStorage n = (((G.values name).foldl
      (fun acc key =>
        match DataFrame.idxOf (F.colStorage name) key with
        | some t => acc ++ [(DataFrame.idxOf (G.colStorage name) key, t)]
        | none => acc) []).foldl
      (fun vs p => assignAt vs p.2 (DataFrame.getVO (G.colStorage n) p.1)) []) := by
    unfold DataFrame.colStorage
    rw [hcolumn]
    simp only [Option.map_some', Option.getD_some, series_values]
    rfl
  rw [hstor, leftJoin_cell (F.colStorage name) (G.colStorage name) (G.colStorage n)
    (G.values name) t]
  rfl

/-- Witness for C5: the first-occurrence statement evaluated at the
spec's concrete left-join case. -/
theorem leftJoin_first_occurrence_witness :
    ((dfJoinL.leftJoin dfJoinR "k").column? "p").isSome ∧
    getV ((dfJoinL.leftJoin dfJoinR "k").colStorage "p") 1 =
      specLeftJoinCell dfJoinL dfJoinR "k" "p" 1 ∧
    (dfJoinL.leftJoin dfJoinR "k").values "p" = [Value.undef, Value.num 10] :=
  ⟨(leftJoin_first_occurrence dfJoinL dfJoinR "k" "p" (by decide) (by decide) (by decide)).1.1,
   (leftJoin_first_occurrence dfJoinL dfJoinR "k" "p" (by decide) (by decide) (by decide)).1.2 1,
   (leftJoin_first_occurrence dfJoinL dfJoinR "k" "p" (by decide) (by decide) (by decide)).2⟩

end DFrame

namespace DFrame

theorem mem_insertSkip (i j : Nat) (s : List Nat) :
    i ∈ DataFrame.insertSkip j s ↔ i ∈ s ∨ i = j := by
  unfold DataFrame.insertSkip
  by_cases h : j ∈ s
  · rw [if_pos h]
    constructor
    · exact Or.inl
    · intro hh
      rcases hh with hh | hh
      · exact hh
      · exact hh ▸ h
  · rw [if_neg h]
    simp [List.mem_append]

theorem mem_foldInsertIf (idx : List Nat) (Q : Nat → Bool) (acc : List Nat) (i : Nat) :
    i ∈ idx.foldl (fun s j => if Q j then DataFrame.insertSkip j s else s) acc ↔
      i ∈ acc ∨ (i ∈ idx ∧ Q i = true) := by
  induction idx generalizing acc with
  | nil => simp
  | cons j rest ih =>
    rw [List.foldl_cons]
    by_cases hq : Q j
    · rw [if_pos hq, ih, mem_insertSkip]
      constructor
      · intro hh
        rcases hh with (hh | hh) | hh
        · exact Or.inl hh
        · exact Or.inr ⟨hh ▸ List.mem_cons_self j rest, hh ▸ hq⟩
        · exact Or.inr ⟨List.mem_cons_of_mem j hh.1, hh.2⟩
      · intro hh
        rcases hh with hh | ⟨hm, hQi⟩
        · exact Or.inl (Or.inl hh)
        · rcases List.mem_cons.mp hm with he | hm2
          · exact Or.inl (Or.inr he)
          · exact Or.inr ⟨hm2, hQi⟩
    · rw [if_neg hq, ih]
      constructor
      · intro hh
        rcases hh with hh | hh
        · exact Or.inl hh
        · exact Or.inr ⟨List.mem_cons_of_mem j hh.1, hh.2⟩
      · intro hh
        rcases hh with hh | ⟨hm, hQi⟩
        · exact Or.inl hh
        · rcases List.mem_cons.mp hm with he | hm2
          · exact absurd (he ▸ hQi) hq
          · exact Or.inr ⟨hm2, hQi⟩

theorem outlier_skip_mem (S : StatsProvider) (factor : Rat) (F : DataFrame)
    (cols : List (String × Column)) (acc : List Nat) (i : Nat) :
    i ∈ cols.foldl (fun skip p =>
      if p.2.isNumber then
        F.index.foldl (fun skip j =>
          if DataFrame.ratioGT (S.avg (F.values p.1)) (getV p.2.values j)
            (S.std (F.values p.1)) factor then DataFrame.insertSkip j skip else skip) skip
      else skip) acc ↔
    i ∈ acc ∨ ∃ p ∈ cols, p.2.isNumber = true ∧ i ∈ F.index ∧
      DataFrame.ratioGT (S.avg (F.values p.1)) (getV p.2.values i) (S.std (F.values p.1))
        factor = true := by
  induction cols generalizing acc with
  | nil => simp
  | cons p ps ih =>
    rw [List.foldl_cons]
    by_cases hn : p.2.isNumber
    · rw [if_pos hn, ih, mem_foldInsertIf]
      constructor
      · intro hh
        rcases hh with (hh | hh) | ⟨q, hq, hC⟩
        · exact Or.inl hh
        · exact Or.inr ⟨p, List.mem_cons_self p ps, hn, hh.1, hh.2⟩
        · exact Or.inr ⟨q, List.mem_cons_of_mem p hq, hC⟩
      · intro hh
        rcases hh with hh | ⟨q, hq, hC⟩
        · exact Or.inl (Or.inl hh)
        · rcases List.mem_cons.mp hq with he | hq2
          · exact Or.inl (Or.inr ⟨(he ▸ hC).2.1, (he ▸ hC).2.2⟩)
          · exact Or.inr ⟨q, hq2, hC⟩
    · rw [if_neg hn, ih]
      constructor
      · intro hh
        rcases hh with hh | ⟨q, hq, hC⟩
        · exact Or.inl hh
        · exact Or.inr ⟨q, List.mem_cons_of_mem p hq, hC⟩
      · intro hh
        rcases hh with hh | ⟨q, hq, hC⟩
        · exact Or.inl hh
        · rcases List.mem_cons.mp hq with he | hq2
          · exact absurd (he ▸ hC).1 hn
          · exact Or.inr ⟨q, hq2, hC⟩

end DFrame

namespace DFrame

/-- C6: `outlier(factor)` drops a visible row exactly when, for at least
one numeric column, the absolute deviation of the row's value from the
column's mean over the currently visible values, divided by the column's
standard deviation over those values (the external provider's statistics,
with JavaScript division semantics at zero deviation), exceeds `factor`;
the result is a view over the remaining rows in current order sharing
column storage.  Concretely, for one column `n = [1,2,1,2,1,10]` and any
provider reporting the true mean 17/6 and a standard deviation in the
admissible interval [11/12, 43/12) — which contains both the population
(≈3.24) and sample (≈3.55) standard deviation — `outlier(2)` leaves the
visible values `[1,2,1,2,1]`. -/
theorem outlier_semantics :
    (∀ (S : StatsProvider) (factor : Rat) (F : DataFrame),
      (F.outlier S factor).columns = F.columns ∧
      (F.outlier S factor).index =
        F.index.filter (fun i => !(markedOutlier F S factor i))) ∧
    (∀ S : StatsProvider,
      S.avg (dfOutl.values "n") = 17/6 →
      11/12 ≤ S.std (dfOutl.values "n") →
      S.std (dfOutl.values "n") < 43/12 →
      (dfOutl.outlier S 2).values "n" =
        [Value.num 1, Value.num 2, Value.num 1, Value.num 2, Value.num 1]) := by
  have hgen : ∀ (S : StatsProvider) (factor : Rat) (F : DataFrame),
      (F.outlier S factor).columns = F.columns ∧
      (F.outlier S factor).index =
        F.index.filter (fun i => !(markedOutlier F S factor i)) := by
    intro S factor F
    refine ⟨rfl, ?_⟩
    show F.index.filter (fun i => !(List.contains (F.columns.foldl (fun skip p =>
        if p.2.isNumber then
          F.index.foldl (fun skip j =>
            if DataFrame.ratioGT (S.avg (F.values p.1)) (getV p.2.values j)
              (S.std (F.values p.1)) factor then DataFrame.insertSkip j skip else skip) skip
        else skip) ([] : List Nat)) i)) = _
    refine List.filter_congr (fun i hi => ?_)
    have hiff : (List.contains (F.columns.foldl (fun skip p =>
        if p.2.isNumber then
          F.index.foldl (fun skip j =>
            if DataFrame.ratioGT (S.avg (F.values p.1)) (getV p.2.values j)
              (S.std (F.values p.1)) factor then DataFrame.insertSkip j skip else skip) skip
        else skip) ([] : List Nat)) i = true) ↔ (markedOutlier F S factor i = true) := by
          rw [show (markedOutlier F S factor i = true) ↔ _ from List.any_eq_true]
          rw [show (List.contains (F.columns.foldl (fun skip p =>
          if p.2.isNumber then
            F.index.foldl (fun skip j =>
              if DataFrame.ratioGT (S.avg (F.values p.1)) (getV p.2.values j)
                (S.std (F.values p.1)) factor then DataFrame.insertSkip j skip else skip) skip
          else skip) ([] : List Nat)) i = true) ↔ _ from List.elem_iff]
          rw [outlier_skip_mem S factor F F.columns [] i]
          constructor
          · intro hh
            rcases hh with hh | ⟨p, hp, h1, _, h3⟩
            · simp at hh
            · exact ⟨p, hp, by rw [Bool.and_eq_true]; exact ⟨h1, h3⟩⟩
          · intro hh
            rcases hh with ⟨p, hp, hC⟩
            rw [Bool.and_eq_true] at hC
            exact Or.inr ⟨p, hp, hC.1, hi, hC.2⟩
    cases hc : List.contains (F.columns.foldl (fun skip p =>
        if p.2.isNumber then
          F.index.foldl (fun skip j =>
            if DataFrame.ratioGT (S.avg (F.values p.1)) (getV p.2.values j)
              (S.std (F.values p.1)) factor then DataFrame.insertSkip j skip else skip) skip
        else skip) ([] : List Nat)) i
    · cases hmk : markedOutlier F S factor i
      · rfl
      · rw [hc, hmk] at hiff
        simp at hiff
    · cases hmk : markedOutlier F S factor i
      · rw [hc, hmk] at hiff
        simp at hiff
      · rfl
  refine ⟨hgen, ?_⟩
  intro S h1 h2 h3
  have hstdpos : 0 < S.std (dfOutl.values "n") := lt_of_lt_of_le (by norm_num) h2
  have hstdne : ¬ ((S.std (dfOutl.values "n") == 0) = true) := by
    simp only [beq_iff_eq]
    exact ne_of_gt hstdpos
  have hrfalse : ∀ v : Rat, |(17/6 : Rat) - v| / S.std (dfOutl.values "n") ≤ 2 →
      DataFrame.ratioGT (17/6) (Value.num v) (S.std (dfOutl.values "n")) 2 = false := by
    intro v hv
    show (if (S.std (dfOutl.values "n") == 0) = true then decide (0 < |(17/6 : Rat) - v|)
      else decide ((2:Rat) < |(17/6 : Rat) - v| / S.std (dfOutl.values "n"))) = false
    rw [if_neg hstdne]
    exact decide_eq_false (not_lt.mpr hv)
  have hrtrue : ∀ v : Rat, (2:Rat) < |(17/6 : Rat) - v| / S.std (dfOutl.values "n") →
      DataFrame.ratioGT (17/6) (Value.num v) (S.std (dfOutl.values "n")) 2 = true := by
    intro v hv
    show (if (S.std (dfOutl.values "n") == 0) = true then decide (0 < |(17/6 : Rat) - v|)
      else decide ((2:Rat) < |(17/6 : Rat) - v| / S.std (dfOutl.values "n"))) = true
    rw [if_neg hstdne]
    exact decide_eq_true hv
  have habs1 : |(17/6 : Rat) - 1| = 11/6 := by
    rw [show (17/6 : Rat) - 1 = 11/6 by norm_num]
    exact abs_of_pos (by norm_num)
  have habs2 : |(17/6 : Rat) - 2| = 5/6 := by
    rw [show (17/6 : Rat) - 2 = 5/6 by norm_num]
    exact abs_of_pos (by norm_num)
  have habs10 : |(17/6 : Rat) - 10| = 43/6 := by
    rw [show (17/6 : Rat) - 10 = -(43/6) by norm_num, abs_neg]
    exact abs_of_pos (by norm_num)
  have hv1 : DataFrame.ratioGT (17/6) (Value.num 1) (S.std (dfOutl.values "n")) 2 = false := by
    refine hrfalse 1 ?_
    rw [habs1, div_le_iff₀ hstdpos]
    linarith
  have hv2 : DataFrame.ratioGT (17/6) (Value.num 2) (S.std (dfOutl.values "n")) 2 = false := by
    refine hrfalse 2 ?_
    rw [habs2, div_le_iff₀ hstdpos]
    linarith
  have hv10 : DataFrame.ratioGT (17/6) (Value.num 10) (S.std (dfOutl.values "n")) 2 = true := by
    refine hrtrue 10 ?_
    rw [habs10, lt_div_iff₀ hstdpos]
    linarith
  have hm : ∀ i, markedOutlier dfOutl S 2 i =
      DataFrame.ratioGT (S.avg (dfOutl.values "n"))
        (getV [Value.num 1, Value.num 2, Value.num 1, Value.num 2, Value.num 1,
          Value.num 10] i) (S.std (dfOutl.values "n")) 2 := by
    intro i
    show ([("n", Column.mk ColKind.num [Value.num 1, Value.num 2, Value.num 1, Value.num 2,
        Value.num 1, Value.num 10])].any fun p => p.2.isNumber &&
        DataFrame.ratioGT (S.avg (dfOutl.values p.1)) (getV p.2.values i)
          (S.std (dfOutl.values p.1)) 2) = _
    simp [Column.isNumber]
  have hb0 : markedOutlier dfOutl S 2 0 = false := by
    rw [hm 0]
    show DataFrame.ratioGT (S.avg (dfOutl.values "n")) (Value.num 1)
      (S.std (dfOutl.values "n")) 2 = false
    rw [h1]
    exact hv1
  have hb1 : markedOutlier dfOutl S 2 1 = false := by
    rw [hm 1]
    show DataFrame.ratioGT (S.avg (dfOutl.values "n")) (Value.num 2)
      (S.std (dfOutl.values "n")) 2 = false
    rw [h1]
    exact hv2
  have hb2 : markedOutlier dfOutl S 2 2 = false := by
    rw [hm 2]
    show DataFrame.ratioGT (S.avg (dfOutl.values "n")) (Value.num 1)
      (S.std (dfOutl.values "n")) 2 = false
    rw [h1]
    exact hv1
  have hb3 : markedOutlier dfOutl S 2 3 = false := by
    rw [hm 3]
    show DataFrame.ratioGT (S.avg (dfOutl.values "n")) (Value.num 2)
      (S.std (dfOutl.values "n")) 2 = false
    rw [h1]
    exact hv2
  have hb4 : markedOutlier dfOutl S 2 4 = false := by
    rw [hm 4]
    show DataFrame.ratioGT (S.avg (dfOutl.values "n")) (Value.num 1)
      (S.std (dfOutl.values "n")) 2 = false
    rw [h1]
    exact hv1
  have hb5 : markedOutlier dfOutl S 2 5 = true := by
    rw [hm 5]
    show DataFrame.ratioGT (S.avg (dfOutl.values "n")) (Value.num 10)
      (S.std (dfOutl.values "n")) 2 = true
    rw [h1]
    exact hv10
  have hcs : (dfOutl.outlier S 2).colStorage "n" = dfOutl.colStorage "n" := by
    unfold DataFrame.colStorage DataFrame.column?
    rw [(hgen S 2 dfOutl).1]
  unfold DataFrame.values
  rw [(hgen S 2 dfOutl).2, hcs]
  show (([0, 1, 2, 3, 4, 5] : List Nat).filter
      (fun i => !(markedOutlier dfOutl S 2 i))).map
    (fun i => getV (dfOutl.colStorage "n") i) = _
  simp only [List.filter_cons, hb0, hb1, hb2, hb3, hb4, hb5, Bool.not_false, Bool.not_true,
    if_true, if_false, List.filter_nil]
  decide

end DFrame

namespace DFrame

/-- Witness for C6: the concrete case discharged with the witness
provider (mean 17/6, standard deviation 3). -/
theorem outlier_semantics_witness :
    Swit.avg (dfOutl.values "n") = 17/6 ∧
    11/12 ≤ Swit.std (dfOutl.values "n") ∧
    Swit.std (dfOutl.values "n") < 43/12 ∧
    (dfOutl.outlier Swit 2).values "n" =
      [Value.num 1, Value.num 2, Value.num 1, Value.num 2, Value.num 1] ∧
    (dfOutl.outlier Swit 2).columns = dfOutl.columns :=
  ⟨rfl, by norm_num [Swit], by norm_num [Swit],
   outlier_semantics.2 Swit rfl (by norm_num [Swit]) (by norm_num [Swit]),
   (outlier_semantics.1 Swit 2 dfOutl).1⟩

end DFrame

namespace DFrame

theorem lookupKey_some_mem {α : Type} (l : List (String × α)) (k : String) (v : α)
    (h : lookupKey l k = some v) : (k, v) ∈ l := by
  induction l with
  | nil => simp [lookupKey] at h
  | cons p ps ih =>
    by_cases hp : p.1 = k
    · rw [lookupKey, if_pos (by simpa using hp)] at h
      cases h
      exact hp ▸ (Prod.mk.eta (p := p)) ▸ List.mem_cons_self p ps
    · rw [lookupKey, if_neg (by simpa using hp)] at h
      exact List.mem_cons_of_mem p (ih h)

theorem length_assignAt_lt (l : List Value) (i : Nat) (v : Value) (h : i < l.length) :
    (assignAt l i v).length = l.length := by
  unfold assignAt
  rw [if_pos h, List.length_set]

theorem getV_ne_undef_lt (l : List Value) (i : Nat) (h : ¬ (getV l i = Value.undef)) :
    i < l.length := by
  by_contra hc
  exact h (getV_oob l i (le_of_not_lt hc))

theorem mkFrame_default_WF (cols : List (String × Column))
    (heq : ∀ p ∈ cols, ∀ q ∈ cols, p.2.values.length = q.2.values.length) :
    WF (mkFrame cols none) := by
  refine ⟨heq, ?_⟩
  intro i hi p hp
  cases cols with
  | nil => simp [mkFrame, defaultIndex] at hi
  | cons c cs =>
    have hb : i < c.2.values.length := by
      simpa [mkFrame, defaultIndex, List.mem_range] using hi
    rw [heq p hp c (List.mem_cons_self c cs)]
    exact hb

theorem WF_reindex_subset (F : DataFrame) (idx : List Nat) (hwf : WF F)
    (hsub : ∀ i ∈ idx, i ∈ F.index) : WF (F.reindex idx) :=
  ⟨hwf.1, fun i hi p hp => hwf.2 i (hsub i hi) p hp⟩

theorem mem_enumFrom_lt {α : Type} (l : List α) (n i : Nat) (a : α)
    (h : (i, a) ∈ l.enumFrom n) : i < n + l.length := by
  induction l generalizing n with
  | nil => simp [List.enumFrom] at h
  | cons x xs ih =>
    rw [List.enumFrom] at h
    rcases List.mem_cons.mp h with he | hm
    · cases he
      simp
    · have := ih (n + 1) hm
      simp only [List.length_cons]
      omega

theorem sort_index_perm (F : DataFrame) (c : String) (asc : Bool) :
    (F.sort c asc).index.Perm F.index := by
  have hfst : (F.index.map (fun i => (i, getV (F.colStorage c) i))).map Prod.fst = F.index := by
    rw [List.map_map]
    have hc : (Prod.fst ∘ fun i : Nat => (i, getV (F.colStorage c) i)) = fun i => i := rfl
    rw [hc]
    exact List.map_id' F.index
  cases asc
  · show ((DataFrame.sortPairs
        (fun a b => DataFrame.jsLt (DataFrame.orZero b.2) (DataFrame.orZero a.2))
        (F.index.map (fun i => (i, getV (F.colStorage c) i)))).map Prod.fst).Perm F.index
    have hp := (sortPairs_perm
      (fun a b => DataFrame.jsLt (DataFrame.orZero b.2) (DataFrame.orZero a.2))
      (F.index.map (fun i => (i, getV (F.colStorage c) i)))).map Prod.fst
    rw [hfst] at hp
    exact hp
  · show ((DataFrame.sortPairs
        (fun a b => DataFrame.jsLt (DataFrame.orZero a.2) (DataFrame.orZero b.2))
        (F.index.map (fun i => (i, getV (F.colStorage c) i)))).map Prod.fst).Perm F.index
    have hp := (sortPairs_perm
      (fun a b => DataFrame.jsLt (DataFrame.orZero a.2) (DataFrame.orZero b.2))
      (F.index.map (fun i => (i, getV (F.colStorage c) i)))).map Prod.fst
    rw [hfst] at hp
    exact hp

theorem mem_foldSetKeyF {α : Type} (xs : List String) (f : String → α)
    (acc : List (String × α)) (q : String × α)
    (hq : q ∈ xs.foldl (fun a x => setKey a x (f x)) acc) :
    q ∈ acc ∨ ∃ x ∈ xs, q = (x, f x) := by
  induction xs generalizing acc with
  | nil => exact Or.inl hq
  | cons x xs ih =>
    rw [List.foldl_cons] at hq
    rcases ih _ hq with hacc | ⟨y, hy, he⟩
    · rcases mem_setKey _ _ _ _ hacc with he | hm
      · exact Or.inr ⟨x, List.mem_cons_self x xs, he⟩
      · exact Or.inl hm
    · exact Or.inr ⟨y, List.mem_cons_of_mem x hy, he⟩

theorem mem_foldRename {α : Type} (l : List (String × α)) (g : String → String)
    (acc : List (String × α)) (q : String × α)
    (hq : q ∈ l.foldl (fun acc p => setKey acc (g p.1) p.2) acc) :
    q ∈ acc ∨ ∃ p ∈ l, q.2 = p.2 := by
  induction l generalizing acc with
  | nil => exact Or.inl hq
  | cons p ps ih =>
    rw [List.foldl_cons] at hq
    rcases ih _ hq with hacc | ⟨r, hr, he⟩
    · rcases mem_setKey _ _ _ _ hacc with he | hm
      · exact Or.inr ⟨p, List.mem_cons_self p ps, by rw [he]⟩
      · exact Or.inl hm
    · exact Or.inr ⟨r, List.mem_cons_of_mem p hr, he⟩

theorem generate_length (F : DataFrame) (name : String) (cb : Value → Value) :
    (F.generate name cb).values.length = (F.colStorage name).length := by
  show (F.index.foldl (fun a i => if getV (F.colStorage name) i != Value.undef
      then assignAt a i (cb (getV (F.colStorage name) i)) else a)
    (List.replicate (F.colStorage name).length Value.undef)).length = _
  have main : ∀ (idx : List Nat) (a : List Value), a.length = (F.colStorage name).length →
      (idx.foldl (fun a i => if getV (F.colStorage name) i != Value.undef
        then assignAt a i (cb (getV (F.colStorage name) i)) else a) a).length =
      (F.colStorage name).length := by
    intro idx
    induction idx with
    | nil => intro a ha; exact ha
    | cons i rest ih =>
      intro a ha
      rw [List.foldl_cons]
      by_cases hdef : getV (F.colStorage name) i != Value.undef
      · rw [if_pos hdef]
        refine ih _ ?_
        rw [length_assignAt_lt]
        · exact ha
        · rw [ha]
          exact getV_ne_undef_lt _ _ (by simpa using hdef)
      · rw [if_neg hdef]
        exact ih _ ha
  exact main F.index _ (List.length_replicate _ _)

end DFrame

namespace DFrame

theorem transpose_lengths (recs : List RowRecord) :
    ∀ p ∈ transpose recs, p.2.length = recs.length := by
  have inner : ∀ (rec : RowRecord) (idx : Nat) (arrays : List (String × List Value)),
      idx < recs.length →
      (∀ p ∈ arrays, p.2.length = recs.length) →
      ∀ p ∈ rec.foldl (fun arrays kv =>
        match lookupKey arrays kv.1 with
        | none => arrays ++ [(kv.1, (List.replicate recs.length Value.undef).set idx kv.2)]
        | some arr => setKey arrays kv.1 (assignAt arr idx kv.2)) arrays,
        p.2.length = recs.length := by
    intro rec
    induction rec with
    | nil => intro idx arrays _ h p hp; exact h p hp
    | cons kv kvs ih =>
      intro idx arrays hidx h p hp
      rw [List.foldl_cons] at hp
      cases hlk : lookupKey arrays kv.1 with
      | none =>
        rw [hlk] at hp
        refine ih idx _ hidx ?_ p hp
        intro q hq
        rcases List.mem_append.mp hq with hq | hq
        · exact h q hq
        · have he : q = (kv.1, (List.replicate recs.length Value.undef).set idx kv.2) := by
            simpa using hq
          rw [he]
          simp
      | some arr =>
        rw [hlk] at hp
        refine ih idx _ hidx ?_ p hp
        intro q hq
        rcases mem_setKey _ _ _ _ hq with he | hm
        · rw [he]
          have harr : arr.length = recs.length := h _ (lookupKey_some_mem arrays kv.1 arr hlk)
          show (assignAt arr idx kv.2).length = recs.length
          rw [length_assignAt_lt _ _ _ (by rw [harr]; exact hidx), harr]
        · exact h q hm
  have outer : ∀ (pairs : List (Nat × RowRecord)) (arrays : List (String × List Value)),
      (∀ ir ∈ pairs, ir.1 < recs.length) →
      (∀ p ∈ arrays, p.2.length = recs.length) →
      ∀ p ∈ pairs.foldl (fun arrays pr =>
        pr.2.foldl (fun arrays kv =>
          match lookupKey arrays kv.1 with
          | none => arrays ++ [(kv.1, (List.replicate recs.length Value.undef).set pr.1 kv.2)]
          | some arr => setKey arrays kv.1 (assignAt arr pr.1 kv.2)) arrays) arrays,
        p.2.length = recs.length := by
    intro pairs
    induction pairs with
    | nil => intro arrays _ h p hp; exact h p hp
    | cons pr rest ih =>
      intro arrays hb h p hp
      rw [List.foldl_cons] at hp
      refine ih _ (fun ir hir => hb ir (List.mem_cons_of_mem pr hir)) ?_ p hp
      exact inner pr.2 pr.1 arrays (hb pr (List.mem_cons_self pr rest)) h
  intro p hp
  refine outer recs.enum [] ?_ (by simp) p hp
  intro ir hir
  have hm : (ir.1, ir.2) ∈ recs.enumFrom 0 := by simpa [List.enum] using hir
  have := mem_enumFrom_lt recs 0 ir.1 ir.2 hm
  simpa using this

theorem fromRecords_WF (recs : List RowRecord) : WF (fromRecords recs) := by
  apply mkFrame_default_WF
  intro p hp q hq
  obtain ⟨p', hp', rfl⟩ := List.mem_map.mp hp
  obtain ⟨q', hq', rfl⟩ := List.mem_map.mp hq
  show (series p'.2).values.length = (series q'.2).values.length
  rw [series_values, series_values, transpose_lengths recs p' hp', transpose_lengths recs q' hq']

theorem fromDef_WF (h : List (String × String)) (recs : List RowRecord) :
    WF (fromDef h recs) := by
  apply mkFrame_default_WF
  intro p hp q hq
  obtain ⟨p', hp', rfl⟩ := List.mem_map.mp hp
  obtain ⟨q', hq', rfl⟩ := List.mem_map.mp hq
  simp

theorem includeRaw_toFrame_WF (F : DataFrame) (names : List String) (hwf : WF F) :
    WF (F.includeRaw names).toFrame := by
  have hvals : ∀ q ∈ (F.includeRaw names).toFrame.columns, ∃ p ∈ F.columns, q.2 = p.2 := by
    intro q hq
    obtain ⟨r, hr, he⟩ := List.mem_filterMap.mp hq
    cases hrv : r.2 with
    | none => rw [hrv] at he; simp at he
    | some c =>
      rw [hrv] at he
      simp only [Option.map_some', Option.some.injEq] at he
      rcases mem_foldSetKeyF names (fun x => F.column? x) [] r hr with h0 | ⟨x, hx, hre⟩
      · simp at h0
      · have hcx : F.column? x = some c := by
          rw [hre] at hrv
          exact hrv
        refine ⟨(x, c), lookupKey_some_mem F.columns x c hcx, ?_⟩
        rw [← he]
  refine ⟨?_, ?_⟩
  · intro p hp q hq
    obtain ⟨p', hp', hpe⟩ := hvals p hp
    obtain ⟨q', hq', hqe⟩ := hvals q hq
    rw [hpe, hqe]
    exact hwf.1 p' hp' q' hq'
  · intro i hi p hp
    obtain ⟨p', hp', hpe⟩ := hvals p hp
    rw [hpe]
    exact hwf.2 i hi p' hp'

theorem applyOp_WF (F : DataFrame) (op : FrameOp) (hwf : WF F) (hg : GoodOp F op) :
    WF (applyOp F op) := by
  cases op with
  | selectOp cb =>
    exact WF_reindex_subset F _ hwf (fun i hi => List.mem_of_mem_filter hi)
  | sortOp name asc =>
    refine ⟨hwf.1, fun i hi p hp => hwf.2 i ?_ p hp⟩
    exact (sort_index_perm F name asc).subset hi
  | sliceOp a b =>
    exact WF_reindex_subset F _ hwf
      (fun i hi => List.mem_of_mem_take (List.mem_of_mem_drop hi))
  | reverseOp =>
    exact WF_reindex_subset F _ hwf (fun i hi => List.mem_reverse.mp hi)
  | shuffleOp σ =>
    exact WF_reindex_subset F _ hwf (fun i hi => hg.subset hi)
  | outlierOp S factor =>
    exact WF_reindex_subset F _ hwf (fun i hi => List.mem_of_mem_filter hi)
  | renameOp m =>
    have hvals : ∀ q ∈ (F.rename m).columns, ∃ p ∈ F.columns, q.2 = p.2 := by
      intro q hq
      rcases mem_foldRename F.columns (fun k => (lookupKey m k).getD k) [] q hq with h0 | h
      · simp at h0
      · exact h
    refine ⟨?_, ?_⟩
    · intro p hp q hq
      obtain ⟨p', hp', hpe⟩ := hvals p hp
      obtain ⟨q', hq', hqe⟩ := hvals q hq
      rw [hpe, hqe]
      exact hwf.1 p' hp' q' hq'
    · intro i hi p hp
      obtain ⟨p', hp', hpe⟩ := hvals p hp
      rw [hpe]
      exact hwf.2 i hi p' hp'
  | includeOp names => exact includeRaw_toFrame_WF F names hwf
  | excludeOp names => exact includeRaw_toFrame_WF F _ hwf
  | deriveOp name cb =>
    obtain ⟨col, hcol⟩ := Option.isSome_iff_exists.mp (lookupKey_isSome F.columns name hg)
    have hmemcol : (name, col) ∈ F.columns := lookupKey_some_mem _ _ _ hcol
    have hstor : F.colStorage name = col.values := by
      unfold DataFrame.colStorage DataFrame.column?
      rw [hcol]
      rfl
    have hlen : (F.generate name cb).values.length = col.values.length := by
      rw [generate_length, hstor]
    have hvals : ∀ q ∈ (F.derive name cb).columns,
        ∃ p ∈ F.columns, q.2.values.length = p.2.values.length := by
      intro q hq
      rcases mem_setKey _ _ _ _ hq with he | hm
      · refine ⟨(name, col), hmemcol, ?_⟩
        rw [he]
        exact hlen
      · exact ⟨q, hm, rfl⟩
    refine ⟨?_, ?_⟩
    · intro p hp q hq
      obtain ⟨p', hp', hpe⟩ := hvals p hp
      obtain ⟨q', hq', hqe⟩ := hvals q hq
      rw [hpe, hqe]
      exact hwf.1 p' hp' q' hq'
    · intro i hi p hp
      obtain ⟨p', hp', hpe⟩ := hvals p hp
      rw [hpe]
      exact hwf.2 i hi p' hp'

end DFrame

namespace DFrame

/-- C1 counterexample: a frame built by public construction and public
operations only — `fromRecords([{n:1},{n:2}])`, then `slice(0,1)`, then
`amend` — violates the index-validity invariant: its columns do not share
one storage length (the old column keeps length 2, the amended one gets
length 1, the visible row count). -/
theorem invariant_not_preserved_by_amend_cex :
    WF dfN ∧
    ¬ WF ((dfN.slice 0 1).amend "m" (fun _ => Value.num 5)) ∧
    (((dfN.slice 0 1).amend "m" (fun _ => Value.num 5)).column? "n").map
      (fun c => c.values.length) = some 2 ∧
    (((dfN.slice 0 1).amend "m" (fun _ => Value.num 5)).column? "m").map
      (fun c => c.values.length) = some 1 :=
  ⟨by unfold WF; decide, by unfold WF; decide, by decide, by decide⟩

/-- C1 (amended): frames produced by `fromRecords`, by `fromDef`, or by
the constructor on equal-length columns with the default index are
well-formed (equal storage lengths, index within `[0, L)`), and
well-formedness is preserved by any sequence of the public operations
`select`, `sort`, `slice`, `reverse`, `shuffle` (with a permutation
provider honouring its contract), `outlier`, `rename`, `include` /
`exclude`, and the elementwise `derive` family (`log`/`scale`/`add`),
each applied within its precondition (named columns exist).  It is NOT
preserved by `amend`, which can leave the new column with a storage
length different from the old columns'. -/
theorem wellformed_construction_and_views :
    (∀ recs : List RowRecord, WF (fromRecords recs)) ∧
    (∀ (h : List (String × String)) (recs : List RowRecord), WF (fromDef h recs)) ∧
    (∀ cols : List (String × Column),
      (∀ p ∈ cols, ∀ q ∈ cols, p.2.values.length = q.2.values.length) →
      WF (mkFrame cols none)) ∧
    (∀ (F : DataFrame) (ops : List FrameOp), WF F → GoodSeq F ops → WF (applyOps F ops)) := by
  refine ⟨fromRecords_WF, fromDef_WF, mkFrame_default_WF, ?_⟩
  intro F ops
  induction ops generalizing F with
  | nil => exact fun h _ => h
  | cons op ops ih =>
    intro hwf hseq
    exact ih (applyOp F op) (applyOp_WF F op hwf hseq.1) hseq.2

/-- Witness for C1: the preservation statement run over a concrete
pipeline of public operations on `[{n:1},{n:2}]`. -/
theorem wellformed_construction_and_views_witness :
    WF dfN ∧
    GoodSeq dfN [FrameOp.sortOp "n" true, FrameOp.reverseOp, FrameOp.shuffleOp id,
      FrameOp.selectOp (fun _ => true), FrameOp.renameOp [("n", "v")],
      FrameOp.deriveOp "v" id, FrameOp.includeOp ["v"], FrameOp.excludeOp ["zz"],
      FrameOp.sliceOp 0 0, FrameOp.outlierOp ⟨fun _ => 0, fun _ => 0⟩ 2] ∧
    WF (applyOps dfN [FrameOp.sortOp "n" true, FrameOp.reverseOp, FrameOp.shuffleOp id,
      FrameOp.selectOp (fun _ => true), FrameOp.renameOp [("n", "v")],
      FrameOp.deriveOp "v" id, FrameOp.includeOp ["v"], FrameOp.excludeOp ["zz"],
      FrameOp.sliceOp 0 0, FrameOp.outlierOp ⟨fun _ => 0, fun _ => 0⟩ 2]) := by
  have hwf : WF dfN := by unfold WF; decide
  have hseq : GoodSeq dfN [FrameOp.sortOp "n" true, FrameOp.reverseOp, FrameOp.shuffleOp id,
      FrameOp.selectOp (fun _ => true), FrameOp.renameOp [("n", "v")],
      FrameOp.deriveOp "v" id, FrameOp.includeOp ["v"], FrameOp.excludeOp ["zz"],
      FrameOp.sliceOp 0 0, FrameOp.outlierOp ⟨fun _ => 0, fun _ => 0⟩ 2] :=
    ⟨by unfold GoodOp; decide, trivial, List.Perm.refl _, trivial, trivial,
      by unfold GoodOp; decide, by unfold GoodOp; decide,
      trivial, trivial, trivial, trivial⟩
  exact ⟨hwf, hseq, (wellformed_construction_and_views.2.2.2) dfN _ hwf hseq⟩

end DFrame
